import Mathlib

/-!
Verification of the transcript-sanitization and citation-resolution core of
the AudioFact Organizer repository.

The TypeScript source (services/geminiService.ts, current variant) is shallowly
embedded here.  Strings are modelled as `List Char`; the JavaScript regular
expressions used by the source are specialised to executable matchers that
follow the ECMAScript backtracking semantics of the concrete patterns
appearing in the code (leftmost match, greedy/lazy quantifier order,
case-insensitive backreferences).  JavaScript numbers that can be `NaN` are
modelled as `Option Int` (`none` = `NaN`).
-/

set_option maxRecDepth 10000

namespace AudioFact

/-- Strings are modelled as lists of characters. -/
abbrev Str := List Char

/-- Coerce a Lean string literal into the embedding. -/
def str (s : String) : Str := s.data

/-! ## Character classes of the JavaScript regexes -/

/-- ECMAScript `\s` (the whitespace characters used by the pipeline; the
rarely used non-ASCII space code points are outside the modelled fragment). -/
def isWsChar (c : Char) : Bool :=
  c = ' ' || c = '\t' || c = '\n' || c = '\r' || c = '\x0b' || c = '\x0c'

/-- ECMAScript `\w` = `[A-Za-z0-9_]`. -/
def isWordChar (c : Char) : Bool :=
  ('a' ≤ c && c ≤ 'z') || ('A' ≤ c && c ≤ 'Z') || ('0' ≤ c && c ≤ '9') || c = '_'

/-- The class `[\s,.]` used between repetitions by the loop-cleaner regexes. -/
def isSepChar (c : Char) : Bool := isWsChar c || c = ',' || c = '.'

/-- ECMAScript `\d`. -/
def isDigitChar (c : Char) : Bool := '0' ≤ c && c ≤ '9'

/-- Lower-casing as performed by `String.prototype.toLowerCase` on the
characters the pipeline works with (ASCII plus the Portuguese accented
letters appearing in the source strings). -/
def toLowerChar (c : Char) : Char :=
  if 'A' ≤ c && c ≤ 'Z' then Char.ofNat (c.toNat + 32)
  else if c = 'Á' then 'á' else if c = 'À' then 'à' else if c = 'Â' then 'â'
  else if c = 'Ã' then 'ã' else if c = 'É' then 'é' else if c = 'Ê' then 'ê'
  else if c = 'Í' then 'í' else if c = 'Ó' then 'ó' else if c = 'Ô' then 'ô'
  else if c = 'Õ' then 'õ' else if c = 'Ú' then 'ú' else if c = 'Ç' then 'ç'
  else c

/-- Case-insensitive character comparison (canonicalisation under the `i`
flag of the source regexes). -/
def ciEq (a b : Char) : Bool := toLowerChar a = toLowerChar b

/-! ## Basic string helpers mirroring JavaScript string methods -/

/-- Does `l` start with the literal pattern `pat` (case-sensitive)? -/
def startsWithL : Str → Str → Bool
  | [], _ => true
  | _ :: _, [] => false
  | p :: ps, c :: cs => p = c && startsWithL ps cs

/-- Does `l` start with the pattern `pat` compared case-insensitively
(used for the `i`-flagged backreferences `\1`)? -/
def ciStartsBool : Str → Str → Bool
  | [], _ => true
  | _ :: _, [] => false
  | p :: ps, c :: cs => ciEq p c && ciStartsBool ps cs

/-- Is `pat` a contiguous substring of `l`?  Mirrors
`String.prototype.includes` (with the arguments in pattern-first order). -/
def containsSubstr (pat : Str) : Str → Bool
  | [] => startsWithL pat []
  | c :: rest => startsWithL pat (c :: rest) || containsSubstr pat rest

/-- `hay.includes(needle)` of JavaScript. -/
def jsIncludes (hay needle : Str) : Bool := containsSubstr needle hay

/-- `String.prototype.trim` (strip `\s` from both ends). -/
def jsTrim (l : Str) : Str :=
  ((l.dropWhile isWsChar).reverse.dropWhile isWsChar).reverse

/-- `String.prototype.toLowerCase`. -/
def toLowerL (l : Str) : Str := l.map toLowerChar

/-- `String.prototype.split` with a single-character separator. -/
def splitOnCharL (sep : Char) : Str → List Str
  | [] => [[]]
  | c :: rest =>
    match splitOnCharL sep rest with
    | [] => [[c]]
    | h :: t => if c = sep then [] :: h :: t else (c :: h) :: t

/-- Fuelled worker for `splitOnSubstr`. -/
def splitOnSubstrF (delim : Str) : Nat → Str → List Str
  | 0, l => [l]
  | f + 1, l =>
    match l with
    | [] => [[]]
    | c :: rest =>
      if startsWithL delim l then [] :: splitOnSubstrF delim f (l.drop delim.length)
      else
        match splitOnSubstrF delim f rest with
        | [] => [[c]]
        | h :: t => (c :: h) :: t

/-- `String.prototype.split` with a non-empty string separator. -/
def splitOnSubstr (delim l : Str) : List Str := splitOnSubstrF delim l.length l

/-- Index of the first occurrence of `pat` in `l`. -/
def findSubstrIdx (pat : Str) : Str → Option Nat
  | [] => if startsWithL pat [] then some 0 else none
  | c :: rest =>
    if startsWithL pat (c :: rest) then some 0
    else (findSubstrIdx pat rest).map (· + 1)

/-- Value of a non-empty decimal digit string (`parseInt` on the digit
captures of the source regexes). -/
def digitsToNat (l : Str) : Nat := l.foldl (fun n c => n * 10 + (c.toNat - 48)) 0

/-- First maximal run of decimal digits in `l` (the regex `/\d+/`). -/
def firstDigitRun : Str → Option Str
  | [] => none
  | c :: rest =>
    if isDigitChar c then some ((c :: rest).takeWhile isDigitChar)
    else firstDigitRun rest

/-- Fuelled decimal rendering of a natural number. -/
def natDigitsAux : Nat → Nat → Str
  | 0, _ => []
  | f + 1, n =>
    if n < 10 then [Char.ofNat (48 + n)]
    else natDigitsAux f (n / 10) ++ [Char.ofNat (48 + n % 10)]

/-- `Number.prototype.toString` for natural numbers. -/
def natDigits (n : Nat) : Str := natDigitsAux (n + 1) n

/-- `padStart(2, "0")` applied to the decimal rendering of `n`. -/
def pad2 (n : Nat) : Str :=
  let s := natDigits n
  if s.length < 2 then '0' :: s else s

/-- `Array.prototype.find`: first element satisfying the predicate. -/
def jsFind {α : Type} (p : α → Bool) : List α → Option α
  | [] => none
  | x :: rest => if p x then some x else jsFind p rest

/-- Worker for `jsFindIndex`, carrying the current index. -/
def jsFindIndexAux {α : Type} (p : α → Bool) : Nat → List α → Option Nat
  | _, [] => none
  | i, x :: rest => if p x then some i else jsFindIndexAux p (i + 1) rest

/-- `Array.prototype.findIndex`; the source's `-1` result is `none`. -/
def jsFindIndex {α : Type} (p : α → Bool) (l : List α) : Option Nat :=
  jsFindIndexAux p 0 l

/-- `Array.prototype.slice` for the in-range clamped indices produced by the
source (`Math.max(0, ...)` / `Math.min(length, ...)`). -/
def jsSlice {α : Type} (l : List α) (s e : Nat) : List α := (l.drop s).take (e - s)

/-- `Array.prototype.join(" ")`. -/
def joinSpace : List Str → Str
  | [] => []
  | [x] => x
  | x :: rest => x ++ ' ' :: joinSpace rest

/-! ## JavaScript number arithmetic with NaN (`Option Int`) -/

/-- Addition; `NaN` (`none`) propagates. -/
def jsAdd (a b : Option Int) : Option Int :=
  match a, b with
  | some x, some y => some (x + y)
  | _, _ => none

/-- Multiplication; `NaN` propagates. -/
def jsMul (a b : Option Int) : Option Int :=
  match a, b with
  | some x, some y => some (x * y)
  | _, _ => none

/-- `Math.abs`; `NaN` propagates. -/
def jsAbsO (a : Option Int) : Option Int := a.map (fun x => |x|)

/-- Subtraction; `NaN` propagates. -/
def jsSub (a b : Option Int) : Option Int :=
  match a, b with
  | some x, some y => some (x - y)
  | _, _ => none

/-- The `<` comparison: any comparison involving `NaN` is `false`. -/
def jsLt (a b : Option Int) : Bool :=
  match a, b with
  | some x, some y => decide (x < y)
  | _, _ => false

/-- `Number(string)` for the integral forms the pipeline feeds it
(whitespace-trimmed empty string is `0`, decimal integer literals with an
optional single sign parse to their value, anything else the pipeline can
produce is `NaN`; fractional/hexadecimal/exponent syntax does not occur in
the timestamp fields this models). -/
def jsNumberL (s : Str) : Option Int :=
  let t := jsTrim s
  if t = [] then some 0
  else if t.all isDigitChar then some (Int.ofNat (digitsToNat t))
  else
    match t with
    | '-' :: ds => if ds ≠ [] && ds.all isDigitChar then some (-(Int.ofNat (digitsToNat ds))) else none
    | '+' :: ds => if ds ≠ [] && ds.all isDigitChar then some (Int.ofNat (digitsToNat ds)) else none
    | _ => none

/-! ## The Loop Cleaner (`cleanRepetitiveLoops`)

The source applies two global regex replacements in order:
word loops `/\b(\w+)(?:[\s,.]+\1\b){3,}/gi → "$1"` and then
phrase loops `/(.{5,50}?)(?:[\s,.]+\1){3,}/gi → "$1"`.
`String.prototype.replace` with the `g` flag collects non-overlapping
leftmost matches on the original string; replaced text is never rescanned
within the same pass. -/

/-- Greedy repetition count for the word-loop regex: repetitions of
`[\s,.]+` followed by the case-insensitive backreference `\1` ending at a
word boundary.  Returns the repetition count and the characters consumed.
No backtracking is needed: the separator class and `\w` are disjoint, so
each repetition is matched deterministically. -/
def wordRepsCount (w : Str) : Nat → Str → Nat × Nat
  | 0, _ => (0, 0)
  | f + 1, l =>
    let sepN := (l.takeWhile isSepChar).length
    if sepN = 0 then (0, 0)
    else
      let rest := l.drop sepN
      if ciStartsBool w rest &&
          (match (rest.drop w.length).head? with
           | some c => !isWordChar c
           | none => true) then
        let rc := wordRepsCount w f (rest.drop w.length)
        (rc.1 + 1, sepN + w.length + rc.2)
      else (0, 0)

/-- Attempt to match the word-loop regex at the current position.  The
position must lie at a `\b` boundary (`prevIsWord = false`); the capture is
the maximal `\w+` run (shorter captures are immediately followed by a word
character and can never satisfy the separator, so the greedy run never
backtracks).  Returns the capture (the `$1` replacement) and the total
match length. -/
def wordTryMatch (prevIsWord : Bool) (l : Str) : Option (Str × Nat) :=
  match l with
  | [] => none
  | c :: _ =>
    if !prevIsWord && isWordChar c then
      let w := l.takeWhile isWordChar
      let rc := wordRepsCount w l.length (l.drop w.length)
      if 3 ≤ rc.1 then some (w, w.length + rc.2) else none
    else none

/-- Fuelled global scan for the word-loop pass, tracking whether the
previous character is a word character (for `\b`). -/
def wordScanF : Nat → Bool → Str → Str
  | 0, _, l => l
  | _ + 1, _, [] => []
  | f + 1, prev, c :: rest =>
    match wordTryMatch prev (c :: rest) with
    | some (cap, len) => cap ++ wordScanF f true ((c :: rest).drop len)
    | none => c :: wordScanF f (isWordChar c) rest

/-- The word-loop replacement pass. -/
def wordPass (l : Str) : Str := wordScanF l.length false l

/-- One repetition for the phrase-loop regex at separator length `j`
(preferring the greedy maximal separator, backtracking downwards):
returns the consumed length `j + |p|` for the first `j` that works. -/
def phraseRepOnceAux (p : Str) (l : Str) : Nat → Option Nat
  | 0 => none
  | j + 1 =>
    if ciStartsBool p (l.drop (j + 1)) then some (j + 1 + p.length)
    else phraseRepOnceAux p l j

/-- First (longest-separator-first) single repetition of phrase `p`. -/
def phraseRepOnce (p : Str) (l : Str) : Option Nat :=
  phraseRepOnceAux p l (l.takeWhile isSepChar).length

/-- Greedy extension phase of `{3,}`: once three repetitions are matched the
quantifier keeps consuming further repetitions along the first successful
path and never backtracks into them. -/
def phraseGreedy (p : Str) : Nat → Str → Nat
  | 0, _ => 0
  | f + 1, l =>
    match phraseRepOnce p l with
    | some c => c + phraseGreedy p f (l.drop c)
    | none => 0

/-- Depth-first search for the first `needed` repetitions of the phrase
(with backtracking over each repetition's separator length `j`, longest
first), followed by the greedy extension.  Returns the total consumed
length. -/
def phraseRepsN (p : Str) : Nat → Nat → Nat → Str → Option Nat
  | 0, _, _, _ => none
  | _ + 1, 0, _, l => some (phraseGreedy p (l.length + 1) l)
  | _ + 1, _ + 1, 0, _ => none
  | f + 1, needed + 1, j + 1, l =>
    if ciStartsBool p (l.drop (j + 1)) then
      let l2 := l.drop (j + 1 + p.length)
      match phraseRepsN p f needed (l2.takeWhile isSepChar).length l2 with
      | some c => some (j + 1 + p.length + c)
      | none => phraseRepsN p f (needed + 1) j l
    else phraseRepsN p f (needed + 1) j l

/-- Attempt the phrase-loop regex at the current position, trying the lazy
phrase lengths `5..50` in increasing order (`.{5,50}?`); `.` does not match
line terminators.  Fuel counts the remaining lengths (`46` at the start, so
the length tried is `51 - fuel`). -/
def phraseTryAux (l : Str) : Nat → Option (Str × Nat)
  | 0 => none
  | f + 1 =>
    if l.length < 51 - (f + 1) then none
    else
      if (l.take (51 - (f + 1))).all (fun c => !(c = '\n' || c = '\r')) then
        match phraseRepsN (l.take (51 - (f + 1))) ((l.length + 2) ^ 3 + 8) 3
            ((l.drop (51 - (f + 1))).takeWhile isSepChar).length (l.drop (51 - (f + 1))) with
        | some c => some (l.take (51 - (f + 1)), 51 - (f + 1) + c)
        | none => phraseTryAux l f
      else phraseTryAux l f

/-- Attempt the phrase-loop regex at the current position. -/
def phraseTryMatch (l : Str) : Option (Str × Nat) := phraseTryAux l 46

/-- Fuelled global scan for the phrase-loop pass. -/
def phraseScanF : Nat → Str → Str
  | 0, l => l
  | _ + 1, [] => []
  | f + 1, c :: rest =>
    match phraseTryMatch (c :: rest) with
    | some (cap, len) => cap ++ phraseScanF f ((c :: rest).drop len)
    | none => c :: phraseScanF f rest

/-- The phrase-loop replacement pass. -/
def phrasePass (l : Str) : Str := phraseScanF l.length l

/-- `cleanRepetitiveLoops` of the source: empty (falsy) text is returned
unchanged, otherwise the word-loop pass runs first and the phrase-loop pass
runs on its result. -/
def cleanRepetitiveLoops (text : Str) : Str :=
  if text = [] then [] else phrasePass (wordPass text)

/-! ## Data model

The record shapes follow the interfaces used by the current service
(`Segment`, `ProcessedContent`, `Fact`, `Citation`, `FactAnalysis`); fields
that are irrelevant to the parsing core (file handles, wall-clock fields
such as `processedAt`/`generatedAt`, report `id`/`name`) are omitted with
the impure orchestration they belong to. -/

/-- One utterance or document chunk produced by the sanitizer. -/
structure Segment where
  timestamp : Str
  seconds : Int
  text : Str
deriving DecidableEq, Repr

/-- One processed evidence file (a.k.a. transcription). -/
structure ProcessedContent where
  fileId : Str
  fileName : Str
  segments : List Segment
  fullText : Str
deriving DecidableEq, Repr

/-- A user-authored fact. -/
structure Fact where
  id : Str
  text : Str
deriving DecidableEq, Repr

/-- The evidence-file metadata consulted by the analysis parser (`id` and
`category` are the only fields it reads; `category` is optional in the
source interface). -/
structure EvidenceMeta where
  id : Str
  category : Option Str
deriving DecidableEq, Repr

/-- A resolved citation.  `seconds` is a JavaScript number that can be
`NaN` (when the echoed timestamp fails to parse), hence `Option Int`. -/
structure Citation where
  fileId : Str
  fileName : Str
  timestamp : Str
  seconds : Option Int
  text : Str
deriving DecidableEq, Repr

/-- Analysis result for one fact.  The source casts the trimmed status
string directly (`as FactStatus`), so the status is modelled as a string. -/
structure FactAnalysis where
  factId : Str
  factText : Str
  status : Str
  summary : Str
  citations : List Citation
deriving DecidableEq, Repr

/-- The pure content of an `AnalysisReport` (its `id`, `name` and
`generatedAt` come from `Date.now()` in the orchestration layer). -/
structure ReportCore where
  generalConclusion : Str
  results : List FactAnalysis
deriving DecidableEq, Repr

/-! ## Line normalisation (the four global replacements of the sanitizer)

The source preprocesses the raw text with
`/([^\n])\s*(\[\d{1,2}:\d{2}(?::\d{2})?\])/g → "$1\n$2"`,
`/([^\n])\s+(\d{1,2}:\d{2}:\d{2})/g → "$1\n$2"`,
`/([^\n])\s*(\[P[áa]g)/g → "$1\n$2"` and
`/(\n\s*){2,}/g → "\n"`, in that order. -/

/-- Generic fuelled global-replace scanner.  `try` reports the replacement
text and the number of characters consumed by a match starting at the
current position; on failure the scanner advances one character (as the
JavaScript engine does). -/
def replaceScan (try0 : Str → Option (Str × Nat)) : Nat → Str → Str
  | 0, l => l
  | _ + 1, [] => []
  | f + 1, c :: rest =>
    match try0 (c :: rest) with
    | some (repl, len) => repl ++ replaceScan try0 f ((c :: rest).drop len)
    | none => c :: replaceScan try0 f rest

/-- Run a global replacement over the whole string. -/
def replaceAll (try0 : Str → Option (Str × Nat)) (l : Str) : Str :=
  replaceScan try0 l.length l

/-- Length of the maximal `\s` run at the front. -/
def wsRun (l : Str) : Nat := (l.takeWhile isWsChar).length

/-- The bracketed timestamp `\[\d{1,2}:\d{2}(?::\d{2})?\]` (after the `[`),
determinised: the digit-run lengths force each quantifier choice.  Returns
the full matched bracket text. -/
def bracketTs (l : Str) : Option Str :=
  match l with
  | '[' :: rest =>
    let d1 := rest.takeWhile isDigitChar
    if d1.length = 0 || 2 < d1.length then none
    else
      match rest.drop d1.length with
      | ':' :: rest2 =>
        let d2 := rest2.takeWhile isDigitChar
        if d2.length ≠ 2 then none
        else
          match rest2.drop 2 with
          | ':' :: rest3 =>
            let d3 := rest3.takeWhile isDigitChar
            if d3.length = 2 && (rest3.drop 2).head? = some ']' then
              some ('[' :: d1 ++ ':' :: d2 ++ ':' :: d3 ++ [']'])
            else none
          | ']' :: _ => some ('[' :: d1 ++ ':' :: d2 ++ [']'])
          | _ => none
      | _ => none
  | _ => none

/-- Replacement 1: newline before a bracketed timestamp not already at a
line start. -/
def tryR1 (l : Str) : Option (Str × Nat) :=
  match l with
  | c :: rest =>
    if c = '\n' then none
    else
      let w := wsRun rest
      match bracketTs (rest.drop w) with
      | some b => some (c :: '\n' :: b, 1 + w + b.length)
      | none => none
  | [] => none

/-- Replacement 2: newline before a bare `\d{1,2}:\d{2}:\d{2}` preceded by
whitespace. -/
def tryR2 (l : Str) : Option (Str × Nat) :=
  match l with
  | c :: rest =>
    if c = '\n' then none
    else
      let w := wsRun rest
      if w = 0 then none
      else
        let after := rest.drop w
        let d1 := after.takeWhile isDigitChar
        if d1.length = 0 || 2 < d1.length then none
        else
          match after.drop d1.length with
          | ':' :: rest2 =>
            let d2 := rest2.takeWhile isDigitChar
            if d2.length ≠ 2 then none
            else
              match rest2.drop 2 with
              | ':' :: rest3 =>
                match rest3 with
                | a :: b :: _ =>
                  if isDigitChar a && isDigitChar b then
                    some (c :: '\n' :: d1 ++ ':' :: d2 ++ ':' :: [a, b],
                          1 + w + d1.length + 1 + 2 + 1 + 2)
                  else none
                | _ => none
              | _ => none
          | _ => none
  | [] => none

/-- Replacement 3: newline before `\[P[áa]g` (case-sensitive, as in the
source). -/
def tryR3 (l : Str) : Option (Str × Nat) :=
  match l with
  | c :: rest =>
    if c = '\n' then none
    else
      let w := wsRun rest
      match rest.drop w with
      | '[' :: 'P' :: a :: 'g' :: _ =>
        if a = 'á' || a = 'a' then some (c :: '\n' :: '[' :: 'P' :: a :: ['g'], 1 + w + 4)
        else none
      | _ => none
  | [] => none

/-- Replacement 4: `(\n\s*){2,}` collapses to a single newline.  The match
is the whitespace run starting at a newline, provided the run contains at
least two newlines (the greedy final `\s*` extends it to the run's end). -/
def tryR4 (l : Str) : Option (Str × Nat) :=
  match l with
  | '\n' :: _ =>
    let run := l.takeWhile isWsChar
    if 2 ≤ (run.filter (fun c => c = '\n')).length then some (['\n'], run.length)
    else none
  | _ => none

/-- The full line normalisation performed at the top of
`sanitizeTranscript`. -/
def normalizeTranscript (raw : Str) : Str :=
  replaceAll tryR4 (replaceAll tryR3 (replaceAll tryR2 (replaceAll tryR1 raw)))

/-! ## The per-line marker regex of the sanitizer

`/(?:^|[\s\*\-\.\(\[])(?:(?:(\d{1,2}):)?(\d{1,2}):(\d{2})|P[áa]g\.?\s*(\d+)|Page\s*(\d+))(?:\]|\)|:)?[\*\-\)]*\s+(.*)/i`
applied with `String.prototype.match` (first match in the line).  The
backtracking search is implemented alternative by alternative in the
engine's preference order. -/

/-- The capture groups of the marker regex (digit captures kept as raw
strings, as `match[i]`). -/
structure TsGroups where
  g1 : Option Str
  g2 : Option Str
  g3 : Option Str
  g4 : Option Str
  g5 : Option Str
  g6 : Str
deriving DecidableEq, Repr

/-- The character class `[\*\-\)]`. -/
def isStarChar (c : Char) : Bool := c = '*' || c = '-' || c = ')'

/-- The tail `[\*\-\)]*\s+(.*)` after the optional closer: a maximal
star-run, at least one whitespace character, then the greedy `.*`
(stopping at a line terminator).  The star and whitespace classes are
disjoint, so no backtracking arises. -/
def tsTailNoClose (l : Str) : Option Str :=
  let l2 := l.dropWhile isStarChar
  let n := wsRun l2
  if n = 0 then none
  else some ((l2.drop n).takeWhile (fun c => !(c = '\n' || c = '\r')))

/-- The tail `(?:\]|\)|:)?[\*\-\)]*\s+(.*)`: the optional closer is tried
greedily first, and on failure the engine retries without consuming it. -/
def tsTail (l : Str) : Option Str :=
  match l with
  | c :: rest =>
    if c = ']' || c = ')' || c = ':' then
      match tsTailNoClose rest with
      | some g => some g
      | none => tsTailNoClose l
    else tsTailNoClose l
  | [] => none

/-- `(\d{2})` for the seconds field followed by the tail. -/
def tsSecTail (mins : Str) (l : Str) : Option (Str × Str × Str) :=
  match l with
  | a :: b :: rest =>
    if isDigitChar a && isDigitChar b then
      (tsTail rest).map (fun g6 => (mins, [a, b], g6))
    else none
  | _ => none

/-- `(\d{1,2}):(\d{2})` plus tail, minutes tried greedily (2 digits, then
1). -/
def tsMinSec (l : Str) : Option (Str × Str × Str) :=
  let d := (l.takeWhile isDigitChar).length
  let try2 :=
    if 2 ≤ d then
      match l.drop 2 with
      | ':' :: rest2 => tsSecTail (l.take 2) rest2
      | _ => none
    else none
  match try2 with
  | some r => some r
  | none =>
    if 1 ≤ d then
      match l.drop 1 with
      | ':' :: rest2 => tsSecTail (l.take 1) rest2
      | _ => none
    else none

/-- The time alternative `(?:(\d{1,2}):)?(\d{1,2}):(\d{2})` plus tail: the
optional hours group is tried first (greedily, 2 digits then 1), then the
hourless form. -/
def tsAltTime (l : Str) : Option TsGroups :=
  let d := (l.takeWhile isDigitChar).length
  let hour2 :=
    if 2 ≤ d then
      match l.drop 2 with
      | ':' :: rest =>
        (tsMinSec rest).map (fun r => ⟨some (l.take 2), some r.1, some r.2.1, none, none, r.2.2⟩)
      | _ => none
    else none
  match hour2 with
  | some g => some g
  | none =>
    let hour1 :=
      if 1 ≤ d then
        match l.drop 1 with
        | ':' :: rest =>
          (tsMinSec rest).map (fun r => ⟨some (l.take 1), some r.1, some r.2.1, none, none, r.2.2⟩)
        | _ => none
      else none
    match hour1 with
    | some g => some g
    | none => (tsMinSec l).map (fun r => ⟨none, some r.1, some r.2.1, none, none, r.2.2⟩)

/-- The `P[áa]g\.?\s*(\d+)` alternative (case-insensitive under the `i`
flag, so the class also admits the upper-case accented letter).  The
optional dot and the greedy digit run need no backtracking: retrying them
shorter exposes a character that immediately fails the next atom. -/
def tsAltPag (l : Str) : Option TsGroups :=
  match l with
  | p :: a :: g :: rest =>
    if ciEq p 'P' && (a = 'á' || a = 'a' || a = 'Á' || a = 'A') && ciEq g 'g' then
      let rest1 := match rest with
        | '.' :: r => r
        | _ => rest
      let rest2 := rest1.dropWhile isWsChar
      let d := rest2.takeWhile isDigitChar
      if d.length = 0 then none
      else (tsTail (rest2.drop d.length)).map (fun g6 => ⟨none, none, none, some d, none, g6⟩)
    else none
  | _ => none

/-- The `Page\s*(\d+)` alternative (case-insensitive). -/
def tsAltPage (l : Str) : Option TsGroups :=
  match l with
  | p :: a :: g0 :: e :: rest =>
    if ciEq p 'P' && ciEq a 'a' && ciEq g0 'g' && ciEq e 'e' then
      let rest2 := rest.dropWhile isWsChar
      let d := rest2.takeWhile isDigitChar
      if d.length = 0 then none
      else (tsTail (rest2.drop d.length)).map (fun g6 => ⟨none, none, none, none, some d, g6⟩)
    else none
  | _ => none

/-- The regex body (the three alternatives in source order). -/
def tsBody (l : Str) : Option TsGroups :=
  match tsAltTime l with
  | some g => some g
  | none =>
    match tsAltPag l with
    | some g => some g
    | none => tsAltPage l

/-- The leading class `[\s\*\-\.\(\[]` of the anchor alternative. -/
def isTsClassChar (c : Char) : Bool :=
  isWsChar c || c = '*' || c = '-' || c = '.' || c = '(' || c = '['

/-- Scan the remaining positions of the line: at each position the anchor
may consume one class character before the body. -/
def tsScan : Str → Option TsGroups
  | [] => none
  | c :: rest =>
    if isTsClassChar c then
      match tsBody rest with
      | some g => some g
      | none => tsScan rest
    else tsScan rest

/-- First match of the marker regex in a line: at position 0 the `^`
anchor alternative applies, after which the class alternative is tried at
every position left to right. -/
def tsFindMatch (l : Str) : Option TsGroups :=
  match tsBody l with
  | some g => some g
  | none => tsScan l

/-! ## The sanitizer loop -/

/-- The mutable loop state of `sanitizeTranscript` (the `lastSeconds`
variable is assigned but never read in this variant of the source; it is
threaded for fidelity). -/
structure SanState where
  segments : List Segment
  lastSeconds : Int
  lastText : Str
deriving DecidableEq, Repr

/-- The `metricValue` / `displayTimestamp` computation of the marker
branch. -/
def metricAndDisplay (g : TsGroups) : Int × Str :=
  let hours : Nat := match g.g1 with
    | some d => digitsToNat d
    | none => 0
  let minutes : Option Nat := g.g2.map digitsToNat
  let secondsPart : Option Nat := g.g3.map digitsToNat
  let pageNum : Option Nat := match g.g4, g.g5 with
    | some d, _ => some (digitsToNat d)
    | none, some d => some (digitsToNat d)
    | none, none => none
  match minutes, secondsPart with
  | some m, some s =>
    (Int.ofNat (hours * 3600 + m * 60 + s),
     if 0 < hours then pad2 hours ++ ':' :: pad2 m ++ ':' :: pad2 s
     else pad2 m ++ ':' :: pad2 s)
  | _, _ =>
    match pageNum with
    | some p => (Int.ofNat p, str "Pág " ++ natDigits p)
    | none => (0, [])

/-- The hallucination-boilerplate check
`["subtitles by", "inaudível"].some(t => text.toLowerCase().includes(t))`. -/
def hallucinationHit (text : Str) : Bool :=
  [str "subtitles by", str "inaudível"].any (fun t => jsIncludes (toLowerL text) t)

/-- Apply `f` to the last element of a list (the in-place mutation
`segments[segments.length - 1]` of the source). -/
def modifyLast {α : Type} (f : α → α) : List α → List α
  | [] => []
  | [x] => [f x]
  | x :: y :: rest => x :: modifyLast f (y :: rest)

/-- One iteration of the sanitizer's `for (const line of lines)` loop. -/
def sanitizeStep (st : SanState) (line : Str) : SanState :=
  if (jsTrim line).length < 2 then st
  else
    match tsFindMatch line with
    | some g =>
      let md := metricAndDisplay g
      let text0 := jsTrim g.g6
      if hallucinationHit text0 then st
      else
        let text := cleanRepetitiveLoops text0
        if text = st.lastText then st
        else if 0 < text.length then
          ⟨st.segments ++ [⟨md.2, md.1, text⟩], md.1, text⟩
        else st
    | none =>
      if 0 < st.segments.length && 0 < (jsTrim line).length then
        let cleanLine := cleanRepetitiveLoops (jsTrim line)
        if !startsWithL ['['] cleanLine && 1 < cleanLine.length then
          ⟨modifyLast (fun s => ⟨s.timestamp, s.seconds, s.text ++ ' ' :: cleanLine⟩) st.segments,
           st.lastSeconds, st.lastText⟩
        else st
      else st

/-- `sanitizeTranscript` of the source: normalise, split into lines, fold
the per-line state machine, return the accumulated segments. -/
def sanitizeTranscript (rawText : Str) : List Segment :=
  ((splitOnCharL '\n' (normalizeTranscript rawText)).foldl sanitizeStep ⟨[], -1, []⟩).segments

/-- The parsed marker value of a single line (the metric the marker branch
would compute), used to relate segment order to marker order. -/
def lineMetric (line : Str) : Option Int :=
  if (jsTrim line).length < 2 then none
  else (tsFindMatch line).map (fun g => (metricAndDisplay g).1)

/-- The marker values of the normalised input, in input order. -/
def markerValues (raw : Str) : List Int :=
  (splitOnCharL '\n' (normalizeTranscript raw)).filterMap lineMetric

/-! ## `parseSecondsSafe` -/

/-- Fallback of `parseSecondsSafe`: `timestamp.match(/\d+/)` and
`parseInt` of the first digit run, or `0` when no digit occurs. -/
def secondsDigitFallback (t : Str) : Option Int :=
  match firstDigitRun t with
  | some d => some (Int.ofNat (digitsToNat d))
  | none => some 0

/-- `parseSecondsSafe` of the source: split on `:` and combine the fields
with JavaScript number arithmetic (a non-numeric field is `NaN` and
propagates), falling back to the first digit run (page forms) or `0`. -/
def parseSecondsSafe (timestamp : Str) : Option Int :=
  if containsSubstr [':'] timestamp then
    match (splitOnCharL ':' timestamp).map jsNumberL with
    | [a, b, c] => jsAdd (jsAdd (jsMul a (some 3600)) (jsMul b (some 60))) c
    | [a, b] => jsAdd (jsMul a (some 60)) b
    | _ => secondsDigitFallback timestamp
  else secondsDigitFallback timestamp

/-! ## Tag extraction of the analysis parser

`/\[\[TAG\]\]([\s\S]*?)\[\[END_TAG\]\]/` — leftmost match, lazy content:
the first opening tag followed by the first closing tag after it. -/

/-- Extract the lazy content between the first `openT` and the first
`closeT` after it. -/
def extractTag (openT closeT l : Str) : Option Str :=
  (findSubstrIdx openT l).bind fun i =>
    let rest := l.drop (i + openT.length)
    (findSubstrIdx closeT rest).map fun k => rest.take k

/-- The lazy group of `/ID:\s*(.*?)(\n|\[)/` scanned up to the first
terminator: `.` admits neither `\n` nor `\r`, and the terminator is `\n`
or `[`. -/
def idScanTerm : Str → Option Str
  | [] => none
  | c :: rest =>
    if c = '\n' || c = '[' then some []
    else if c = '\r' then none
    else (idScanTerm rest).map (c :: ·)

/-- Backtracking over the greedy `\s*` of the ID regex (longest first). -/
def idTryAux (after : Str) : Nat → Option Str
  | 0 => idScanTerm after
  | a + 1 =>
    match idScanTerm (after.drop (a + 1)) with
    | some g => some g
    | none => idTryAux after a

/-- Attempt `/ID:\s*(.*?)(\n|\[)/` at the current position. -/
def idTry (l : Str) : Option Str :=
  if startsWithL (str "ID:") l then
    let after := l.drop 3
    idTryAux after (wsRun after)
  else none

/-- First match of the ID regex in the block. -/
def idFind : Str → Option Str
  | [] => none
  | c :: rest =>
    match idTry (c :: rest) with
    | some g => some g
    | none => idFind rest

/-! ## The citation-marker regex `/\[\s*(.*?)\s*@\s*(.*?)\s*\]/g`

The inner `\s*` atoms that border a literal (`@` or `]`) are deterministic:
the literal is not a whitespace character, so only the maximal whitespace
run can precede it.  The lazy groups grow one character at a time (never
across a line terminator). -/

/-- Match `\s*\]` at the head (returns the consumed length). -/
def citClose (rem : Str) : Option Nat :=
  let j := wsRun rem
  if (rem.drop j).head? = some ']' then some (j + 1) else none

/-- Grow the second lazy group until `\s*\]` closes the marker.  Returns
the group and the total consumed length. -/
def citG5 : Nat → Str → Str → Option (Str × Nat)
  | 0, _, _ => none
  | f + 1, accRev, rem =>
    match citClose rem with
    | some n => some (accRev.reverse, accRev.length + n)
    | none =>
      match rem with
      | c :: rest =>
        if c = '\n' || c = '\r' then none
        else citG5 f (c :: accRev) rest
      | [] => none

/-- Match `\s*(.*?)\s*\]` after the `@`. -/
def citAfterAt (l : Str) : Option (Str × Nat) :=
  let a := wsRun l
  (citG5 (l.length + 1) [] (l.drop a)).map (fun r => (r.1, a + r.2))

/-- Match `\s*@` at the head (returns the consumed length). -/
def citAt (rem : Str) : Option Nat :=
  let j := wsRun rem
  if (rem.drop j).head? = some '@' then some (j + 1) else none

/-- Grow the first lazy group until `\s*@` is found with a well-formed
remainder; if the remainder fails (no closing `]`), the lazy group keeps
growing past the `@`. -/
def citG2 : Nat → Str → Str → Option (Str × Str × Nat)
  | 0, _, _ => none
  | f + 1, accRev, rem =>
    let viaAt :=
      match citAt rem with
      | some n =>
        (citAfterAt (rem.drop n)).map (fun r => (accRev.reverse, r.1, accRev.length + n + r.2))
      | none => none
    match viaAt with
    | some r => some r
    | none =>
      match rem with
      | c :: rest =>
        if c = '\n' || c = '\r' then none
        else citG2 f (c :: accRev) rest
      | [] => none

/-- Backtracking over the greedy leading `\s*` (longest first) of the
citation marker. -/
def citA1 (rest : Str) : Nat → Option (Str × Str × Nat)
  | 0 => citG2 (rest.length + 1) [] rest
  | a + 1 =>
    match citG2 (rest.length + 1) [] (rest.drop (a + 1)) with
    | some r => some (r.1, r.2.1, a + 1 + r.2.2)
    | none => citA1 rest a

/-- Attempt the citation-marker regex at a `[`.  Returns the two raw
captures and the total match length. -/
def citTry (l : Str) : Option (Str × Str × Nat) :=
  match l with
  | '[' :: rest =>
    (citA1 rest (wsRun rest)).map (fun r => (r.1, r.2.1, 1 + r.2.2))
  | _ => none

/-- Global scan collecting all citation markers of the evidences block, in
order (the `while ((match = citationRegex.exec(...)))` loop). -/
def citMarkersF : Nat → Str → List (Str × Str)
  | 0, _ => []
  | _ + 1, [] => []
  | f + 1, c :: rest =>
    match citTry (c :: rest) with
    | some (g2, g5, len) => (g2, g5) :: citMarkersF f ((c :: rest).drop len)
    | none => citMarkersF f rest

/-- All citation markers of a string. -/
def extractCitationMarkers (l : Str) : List (Str × Str) := citMarkersF l.length l

/-! ## Citation resolution (inside `analyzeFactsFromEvidence`) -/

/-- The fuzzy file-name predicate: case-insensitive substring containment
in either direction. -/
def fuzzyPred (ref : Str) (d : ProcessedContent) : Bool :=
  jsIncludes (toLowerL d.fileName) (toLowerL ref) ||
  jsIncludes (toLowerL ref) (toLowerL d.fileName)

/-- The closest-segment reduction used for document evidence
(`segments.reduce(..., segments[0])`; an empty array yields the
`undefined` initial value, i.e. `none`).  The callback also visits the
initial element, which is harmless. -/
def jsReduceClosest (segs : List Segment) (secs : Option Int) : Option Segment :=
  match segs with
  | [] => none
  | s0 :: _ =>
    some (segs.foldl
      (fun prev curr =>
        if jsLt (jsAbsO (jsSub (some curr.seconds) secs)) (jsAbsO (jsSub (some prev.seconds) secs))
        then curr else prev)
      s0)

/-- The tolerance search used for testimony evidence
(`findIndex(s => Math.abs(s.seconds - seconds) < 2)`). -/
def jsFindIndexTol (segs : List Segment) (secs : Option Int) : Option Nat :=
  jsFindIndex (fun s => jsLt (jsAbsO (jsSub (some s.seconds) secs)) (some 2)) segs

/-- The excerpt text of one citation: for documents the text of the closest
segment (default when the file has no segments); for testimony the
space-joined window `slice(max(0, c-1), min(length, c+6))` around the first
segment within the strict tolerance, or the default when none is. -/
def mkCitationText (src : ProcessedContent) (isDocument : Bool) (secs : Option Int) : Str :=
  if isDocument then
    match jsReduceClosest src.segments secs with
    | some seg => seg.text
    | none => str "Texto indisponível"
  else
    match jsFindIndexTol src.segments secs with
    | some c =>
      let start := c - 1
      let stop := min src.segments.length (c + 6)
      joinSpace ((jsSlice src.segments start stop).map Segment.text)
    | none => str "Texto indisponível"

/-- Process one citation marker: trim the captures, split the timestamp
list on commas, fuzzy-match the file, look up its metadata
(`category !== 'TESTIMONY'` marks a document), and emit one `Citation` per
timestamp; an unmatched file reference contributes nothing. -/
def markerCitations (corpus : List ProcessedContent) (metas : List EvidenceMeta)
    (m : Str × Str) : List Citation :=
  let fileNameRef := jsTrim m.1
  let timestamps := (splitOnCharL ',' (jsTrim m.2)).map jsTrim
  match jsFind (fuzzyPred fileNameRef) corpus with
  | none => []
  | some src =>
    let fileMeta := jsFind (fun f : EvidenceMeta => f.id = src.fileId) metas
    let isDocument : Bool := !((fileMeta.bind EvidenceMeta.category) = some (str "TESTIMONY"))
    timestamps.map (fun ts =>
      let secs := parseSecondsSafe ts
      { fileId := src.fileId
        fileName := src.fileName
        timestamp := ts
        seconds := secs
        text := mkCitationText src isDocument secs })

/-! ## The fact-block parser -/

/-- Parse one block produced by splitting on `[[FACT]]`: a `FactAnalysis`
is emitted only when a (non-empty trimmed) ID was found; status, summary
and evidences fall back to the source's defaults. -/
def parseFactBlock (corpus : List ProcessedContent) (metas : List EvidenceMeta)
    (facts : List Fact) (block : Str) : Option FactAnalysis :=
  let factId := match idFind block with
    | some g => jsTrim g
    | none => []
  let status := match extractTag (str "[[STATUS]]") (str "[[END_STATUS]]") block with
    | some c => jsTrim c
    | none => str "Inconclusivo/Contraditório"
  let summary := match extractTag (str "[[SUMMARY]]") (str "[[END_SUMMARY]]") block with
    | some c => jsTrim c
    | none => str "Sem resumo disponível."
  let evidences := match extractTag (str "[[EVIDENCES]]") (str "[[END_EVIDENCES]]") block with
    | some c => c
    | none => []
  let citations := (extractCitationMarkers evidences).flatMap (markerCitations corpus metas)
  if factId ≠ [] then
    some
      { factId := factId
        factText := match jsFind (fun f : Fact => f.id = factId) facts with
          | some f => if f.text = [] then str "Desconhecido" else f.text
          | none => str "Desconhecido"
        status := status
        summary := summary
        citations := citations }
  else none

/-- The response-parsing core of `analyzeFactsFromEvidence`: extract the
general conclusion, split the response on the `[[FACT]]` delimiter
(dropping the prefix before the first delimiter, `slice(1)`), and collect
the parsed fact blocks.  This function is total: the source's only
exceptions on this path come from the surrounding network call. -/
def analyzeFactsFromEvidenceCore (rawText : Str) (corpus : List ProcessedContent)
    (facts : List Fact) (metas : List EvidenceMeta) : ReportCore :=
  let generalConclusion :=
    match extractTag (str "[[CONCLUSION]]") (str "[[END_CONCLUSION]]") rawText with
    | some c => jsTrim c
    | none => str "Análise concluída."
  let blocks := (splitOnSubstr (str "[[FACT]]") rawText).tail
  { generalConclusion := generalConclusion
    results := blocks.filterMap (parseFactBlock corpus metas facts) }

/-! ## Helper lemmas -/

theorem digit_ne_of (c d : Char) (h : isDigitChar c = true) (hd : isDigitChar d = false) :
    c ≠ d := by
  intro he
  rw [he, hd] at h
  exact Bool.false_ne_true h

theorem digit_not_ws {c : Char} (h : isDigitChar c = true) : isWsChar c = false := by
  have k : ∀ d : Char, isDigitChar d = false → decide (c = d) = false := by
    intro d hd
    simp only [decide_eq_false_iff_not]
    intro he
    rw [he, hd] at h
    exact Bool.false_ne_true h
  unfold isWsChar
  rw [k ' ' (by decide), k '\t' (by decide), k '\n' (by decide), k '\x0d' (by decide),
      k '\x0b' (by decide), k '\x0c' (by decide)]
  rfl

theorem dropWhile_eq_self_of_none {p : Char → Bool} :
    ∀ l : Str, (∀ c ∈ l, p c = false) → l.dropWhile p = l := by
  intro l h
  cases l with
  | nil => rfl
  | cons c rest => simp [List.dropWhile, h c (by simp)]

theorem takeWhile_eq_self_of_all {p : Char → Bool} :
    ∀ l : Str, (∀ c ∈ l, p c = true) → l.takeWhile p = l := by
  intro l
  induction l with
  | nil => intro _; rfl
  | cons c rest ih =>
    intro h
    simp [List.takeWhile, h c (by simp), ih (fun d hd => h d (by simp [hd]))]

theorem jsTrim_eq_self_of_no_ws (l : Str) (h : ∀ c ∈ l, isWsChar c = false) :
    jsTrim l = l := by
  unfold jsTrim
  rw [dropWhile_eq_self_of_none l h,
      dropWhile_eq_self_of_none l.reverse (fun c hc => h c (List.mem_reverse.mp hc)),
      List.reverse_reverse]

theorem jsNumberL_digits (l : Str) (hne : l ≠ []) (hd : ∀ c ∈ l, isDigitChar c = true) :
    jsNumberL l = some (Int.ofNat (digitsToNat l)) := by
  unfold jsNumberL
  rw [jsTrim_eq_self_of_no_ws l (fun c hc => digit_not_ws (hd c hc))]
  simp only [if_neg hne]
  rw [if_pos (List.all_eq_true.mpr hd)]

theorem splitOnCharL_ne_nil (sep : Char) : ∀ l : Str, splitOnCharL sep l ≠ [] := by
  intro l
  cases l with
  | nil => simp [splitOnCharL]
  | cons c rest =>
    simp only [splitOnCharL]
    cases hsp : splitOnCharL sep rest with
    | nil => simp
    | cons x xs =>
      by_cases hcs : c = sep <;> simp [hcs]

theorem splitOnCharL_no_sep (sep : Char) :
    ∀ l : Str, (∀ c ∈ l, c ≠ sep) → splitOnCharL sep l = [l] := by
  intro l
  induction l with
  | nil => intro _; rfl
  | cons c rest ih =>
    intro h
    simp only [splitOnCharL]
    rw [ih (fun d hd => h d (by simp [hd]))]
    simp [h c (by simp)]

theorem splitOnCharL_append_sep (sep : Char) :
    ∀ a : Str, (∀ c ∈ a, c ≠ sep) → ∀ b : Str,
      splitOnCharL sep (a ++ sep :: b) = a :: splitOnCharL sep b := by
  intro a
  induction a with
  | nil =>
    intro _ b
    show splitOnCharL sep (sep :: b) = [] :: splitOnCharL sep b
    simp only [splitOnCharL]
    cases hb : splitOnCharL sep b with
    | nil => exact absurd hb (splitOnCharL_ne_nil sep b)
    | cons x xs => simp
  | cons c a ih =>
    intro h b
    have e : splitOnCharL sep (c :: (a ++ sep :: b)) =
        match splitOnCharL sep (a ++ sep :: b) with
        | [] => [[c]]
        | x :: xs => if c = sep then [] :: x :: xs else (c :: x) :: xs := rfl
    rw [List.cons_append, e, ih (fun d hd => h d (by simp [hd])) b]
    simp [h c (by simp)]

theorem containsSubstr_singleton_iff (c : Char) :
    ∀ l : Str, containsSubstr [c] l = true ↔ c ∈ l := by
  intro l
  induction l with
  | nil => simp [containsSubstr, startsWithL]
  | cons d rest ih =>
    simp only [containsSubstr, startsWithL, Bool.and_true, Bool.or_eq_true,
      decide_eq_true_eq, List.mem_cons, ih]

theorem firstDigitRun_none_of_no_digit :
    ∀ l : Str, (∀ c ∈ l, isDigitChar c = false) → firstDigitRun l = none := by
  intro l
  induction l with
  | nil => intro _; rfl
  | cons c rest ih =>
    intro h
    simp only [firstDigitRun, h c (by simp)]
    exact ih (fun d hd => h d (by simp [hd]))

theorem list_mem_pair {α : Type} {c a b : α} (hm : c ∈ [a, b]) : c = a ∨ c = b := by
  rcases List.mem_cons.mp hm with h | h
  · exact Or.inl h
  · rcases List.mem_cons.mp h with h2 | h2
    · exact Or.inr h2
    · exact absurd h2 (List.not_mem_nil c)

theorem firstDigitRun_append (a : Str) (ha : ∀ c ∈ a, isDigitChar c = false) :
    ∀ d : Str, d ≠ [] → (∀ c ∈ d, isDigitChar c = true) →
      firstDigitRun (a ++ d) = some d := by
  induction a with
  | nil =>
    intro d hne hd
    cases d with
    | nil => exact absurd rfl hne
    | cons c rest =>
      simp only [List.nil_append, firstDigitRun, hd c (by simp)]
      rw [takeWhile_eq_self_of_all (c :: rest) hd]
      simp
  | cons c a ih =>
    intro d hne hd
    simp only [List.cons_append, firstDigitRun, ha c (by simp)]
    exact ih (fun e he => ha e (by simp [he])) d hne hd

/-! ## C4: the timestamp parser -/

/-- Claim C4 (corrected): the timestamp parser returns `H*3600 + M*60 + S`
for `HH:MM:SS` input, `M*60 + S` for `MM:SS` input, the bare page number
for `Pág N` / `Page N` input, and `0` for input containing no digits and no
colon; a two- or three-field colon form with non-numeric fields returns
`NaN` (modelled as `none`), not `0`.  The concrete vectors of the claim all
hold. -/
theorem C4_parse_position_forms :
    (∀ c1 c2 c3 c4 c5 c6 : Char,
      isDigitChar c1 = true → isDigitChar c2 = true → isDigitChar c3 = true →
      isDigitChar c4 = true → isDigitChar c5 = true → isDigitChar c6 = true →
      parseSecondsSafe [c1, c2, ':', c3, c4, ':', c5, c6] =
        some (Int.ofNat (digitsToNat [c1, c2] * 3600 + digitsToNat [c3, c4] * 60 +
          digitsToNat [c5, c6]))) ∧
    (∀ c1 c2 c3 c4 : Char,
      isDigitChar c1 = true → isDigitChar c2 = true → isDigitChar c3 = true →
      isDigitChar c4 = true →
      parseSecondsSafe [c1, c2, ':', c3, c4] =
        some (Int.ofNat (digitsToNat [c1, c2] * 60 + digitsToNat [c3, c4]))) ∧
    (∀ d : Str, d ≠ [] → (∀ c ∈ d, isDigitChar c = true) →
      parseSecondsSafe (str "Pág " ++ d) = some (Int.ofNat (digitsToNat d)) ∧
      parseSecondsSafe (str "Page " ++ d) = some (Int.ofNat (digitsToNat d))) ∧
    (∀ l : Str, (':' ∉ l) → (∀ c ∈ l, isDigitChar c = false) →
      parseSecondsSafe l = some 0) ∧
    (parseSecondsSafe (str "01:02:03") = some 3723 ∧
      parseSecondsSafe (str "05:30") = some 330 ∧
      parseSecondsSafe (str "Pág 4") = some 4 ∧
      parseSecondsSafe (str "garbage") = some 0 ∧
      parseSecondsSafe (str "ab:cd") = none) := by
  refine ⟨?_, ?_, ?_, ?_, by decide⟩
  · intro c1 c2 c3 c4 c5 c6 h1 h2 h3 h4 h5 h6
    have np : ∀ a b : Char, isDigitChar a = true → isDigitChar b = true →
        ∀ c ∈ [a, b], c ≠ ':' := by
      intro a b hda hdb c hc
      rcases list_mem_pair hc with h | h <;>
        (subst h; exact digit_ne_of _ ':' (by assumption) (by decide))
    have dp : ∀ a b : Char, isDigitChar a = true → isDigitChar b = true →
        ∀ c ∈ [a, b], isDigitChar c = true := by
      intro a b hda hdb c hc
      rcases list_mem_pair hc with h | h <;> (subst h; assumption)
    have hsplit : splitOnCharL ':' [c1, c2, ':', c3, c4, ':', c5, c6] =
        [[c1, c2], [c3, c4], [c5, c6]] := by
      have e1 : [c1, c2, ':', c3, c4, ':', c5, c6] =
          [c1, c2] ++ ':' :: ([c3, c4] ++ ':' :: [c5, c6]) := rfl
      rw [e1, splitOnCharL_append_sep ':' [c1, c2] (np c1 c2 h1 h2),
          splitOnCharL_append_sep ':' [c3, c4] (np c3 c4 h3 h4),
          splitOnCharL_no_sep ':' [c5, c6] (np c5 c6 h5 h6)]
    have hmem : (':' : Char) ∈ [c1, c2, ':', c3, c4, ':', c5, c6] := by simp
    unfold parseSecondsSafe
    rw [if_pos ((containsSubstr_singleton_iff ':' _).mpr hmem), hsplit]
    simp only [List.map_cons, List.map_nil]
    rw [jsNumberL_digits [c1, c2] (by simp) (dp c1 c2 h1 h2),
        jsNumberL_digits [c3, c4] (by simp) (dp c3 c4 h3 h4),
        jsNumberL_digits [c5, c6] (by simp) (dp c5 c6 h5 h6)]
    simp only [jsMul, jsAdd, Option.some.injEq, Int.ofNat_eq_natCast]
    push_cast
    ring
  · intro c1 c2 c3 c4 h1 h2 h3 h4
    have np : ∀ a b : Char, isDigitChar a = true → isDigitChar b = true →
        ∀ c ∈ [a, b], c ≠ ':' := by
      intro a b hda hdb c hc
      rcases list_mem_pair hc with h | h <;>
        (subst h; exact digit_ne_of _ ':' (by assumption) (by decide))
    have dp : ∀ a b : Char, isDigitChar a = true → isDigitChar b = true →
        ∀ c ∈ [a, b], isDigitChar c = true := by
      intro a b hda hdb c hc
      rcases list_mem_pair hc with h | h <;> (subst h; assumption)
    have hsplit : splitOnCharL ':' [c1, c2, ':', c3, c4] = [[c1, c2], [c3, c4]] := by
      have e1 : [c1, c2, ':', c3, c4] = [c1, c2] ++ ':' :: [c3, c4] := rfl
      rw [e1, splitOnCharL_append_sep ':' [c1, c2] (np c1 c2 h1 h2),
          splitOnCharL_no_sep ':' [c3, c4] (np c3 c4 h3 h4)]
    have hmem : (':' : Char) ∈ [c1, c2, ':', c3, c4] := by simp
    unfold parseSecondsSafe
    rw [if_pos ((containsSubstr_singleton_iff ':' _).mpr hmem), hsplit]
    simp only [List.map_cons, List.map_nil]
    rw [jsNumberL_digits [c1, c2] (by simp) (dp c1 c2 h1 h2),
        jsNumberL_digits [c3, c4] (by simp) (dp c3 c4 h3 h4)]
    simp only [jsMul, jsAdd, Option.some.injEq, Int.ofNat_eq_natCast]
    push_cast
    ring
  · intro d hne hd
    constructor
    · have hnc : containsSubstr [':'] (str "Pág " ++ d) = false := by
        cases hc : containsSubstr [':'] (str "Pág " ++ d)
        · rfl
        · exfalso
          have := (containsSubstr_singleton_iff ':' _).mp hc
          rcases List.mem_append.mp this with h | h
          · revert h; decide
          · exact digit_ne_of ':' ':' (hd ':' h) (by decide) rfl
      unfold parseSecondsSafe
      rw [if_neg (by simp [hnc])]
      unfold secondsDigitFallback
      rw [firstDigitRun_append (str "Pág ") (by decide) d hne hd]
    · have hnc : containsSubstr [':'] (str "Page " ++ d) = false := by
        cases hc : containsSubstr [':'] (str "Page " ++ d)
        · rfl
        · exfalso
          have := (containsSubstr_singleton_iff ':' _).mp hc
          rcases List.mem_append.mp this with h | h
          · revert h; decide
          · exact digit_ne_of ':' ':' (hd ':' h) (by decide) rfl
      unfold parseSecondsSafe
      rw [if_neg (by simp [hnc])]
      unfold secondsDigitFallback
      rw [firstDigitRun_append (str "Page ") (by decide) d hne hd]
  · intro l hnc hnd
    have hc : containsSubstr [':'] l = false := by
      cases hc : containsSubstr [':'] l
      · rfl
      · exact absurd ((containsSubstr_singleton_iff ':' l).mp hc) hnc
    unfold parseSecondsSafe
    rw [if_neg (by simp [hc])]
    unfold secondsDigitFallback
    rw [firstDigitRun_none_of_no_digit l hnd]

/-- Witness for C4: the theorem applied at concrete digit characters and
page forms. -/
theorem C4_parse_position_forms_witness :
    parseSecondsSafe ['1', '2', ':', '3', '4', ':', '5', '6'] =
      some (Int.ofNat (digitsToNat ['1', '2'] * 3600 + digitsToNat ['3', '4'] * 60 +
        digitsToNat ['5', '6'])) ∧
    parseSecondsSafe ['0', '7', ':', '0', '8'] =
      some (Int.ofNat (digitsToNat ['0', '7'] * 60 + digitsToNat ['0', '8'])) ∧
    parseSecondsSafe (str "Pág " ++ ['4', '2']) = some (Int.ofNat (digitsToNat ['4', '2'])) ∧
    parseSecondsSafe (str "xyz") = some 0 :=
  ⟨C4_parse_position_forms.1 '1' '2' '3' '4' '5' '6' (by decide) (by decide) (by decide)
      (by decide) (by decide) (by decide),
   C4_parse_position_forms.2.1 '0' '7' '0' '8' (by decide) (by decide) (by decide) (by decide),
   (C4_parse_position_forms.2.2.1 ['4', '2'] (by decide) (by decide)).1,
   C4_parse_position_forms.2.2.2.1 (str "xyz") (by decide) (by decide)⟩

/-- Counterexample to C4 as stated: `"ab:cd"` is malformed input containing
no digits, yet the parser returns `NaN` (`none`), not `0`. -/
theorem C4_counterexample :
    (str "ab:cd").all (fun c => !isDigitChar c) = true ∧
    parseSecondsSafe (str "ab:cd") = none ∧ (none : Option Int) ≠ some 0 := by
  refine ⟨by decide, by decide, by decide⟩

/-! ## C1: behaviour of the report parser on responses with no fact blocks -/

theorem splitOnSubstrF_of_not_contains (delim : Str) :
    ∀ (f : Nat) (l : Str), containsSubstr delim l = false → splitOnSubstrF delim f l = [l] := by
  intro f
  induction f with
  | zero => intro l _; rfl
  | succ f ih =>
    intro l h
    cases l with
    | nil => rfl
    | cons c rest =>
      have hsw : startsWithL delim (c :: rest) = false := by
        cases hs : startsWithL delim (c :: rest)
        · rfl
        · exfalso
          unfold containsSubstr at h
          rw [hs] at h
          simp at h
      have hrest : containsSubstr delim rest = false := by
        unfold containsSubstr at h
        rw [hsw] at h
        simpa using h
      simp only [splitOnSubstrF, hsw]
      rw [ih rest hrest]
      simp

theorem splitOnSubstr_of_not_contains (delim l : Str)
    (h : containsSubstr delim l = false) : splitOnSubstr delim l = [l] :=
  splitOnSubstrF_of_not_contains delim l.length l h

/-- Claim C1 (corrected): when a response contains no `[[FACT]]` delimiter
the current parser does not raise; it returns a report whose `results`
list is empty (with the fallback conclusion handling unchanged). -/
theorem C1_empty_results_report (raw : Str) (corpus : List ProcessedContent)
    (facts : List Fact) (metas : List EvidenceMeta)
    (h : containsSubstr (str "[[FACT]]") raw = false) :
    (analyzeFactsFromEvidenceCore raw corpus facts metas).results = [] := by
  unfold analyzeFactsFromEvidenceCore
  rw [splitOnSubstr_of_not_contains (str "[[FACT]]") raw h]
  rfl

/-- Witness for C1 at a concrete non-empty response. -/
theorem C1_empty_results_report_witness :
    containsSubstr (str "[[FACT]]") (str "Sem blocos de facto aqui.") = false ∧
    (analyzeFactsFromEvidenceCore (str "Sem blocos de facto aqui.")
        [⟨str "id1", str "audio1.mp3", [⟨str "00:01", 1, str "Ola."⟩], str "x"⟩]
        [⟨str "f1", str "Facto um."⟩] [⟨str "id1", some (str "TESTIMONY")⟩]).results = [] :=
  ⟨by decide,
   C1_empty_results_report (str "Sem blocos de facto aqui.")
     [⟨str "id1", str "audio1.mp3", [⟨str "00:01", 1, str "Ola."⟩], str "x"⟩]
     [⟨str "f1", str "Facto um."⟩] [⟨str "id1", some (str "TESTIMONY")⟩] (by decide)⟩

/-- Counterexample to C1 as stated: a non-empty raw response with no
`[[FACT]]` block produces a full report value with an empty results list
(the parsing path of the current source contains no `throw`; the embedded
core is a total function into `ReportCore`), instead of surfacing an
error. -/
theorem C1_counterexample :
    str "Resposta sem etiquetas estruturadas." ≠ [] ∧
    analyzeFactsFromEvidenceCore (str "Resposta sem etiquetas estruturadas.")
        [⟨str "id1", str "audio1.mp3", [⟨str "00:01", 1, str "Ola."⟩], str "x"⟩]
        [⟨str "f1", str "Facto um."⟩] [⟨str "id1", some (str "TESTIMONY")⟩] =
      ⟨str "Análise concluída.", []⟩ := by
  exact ⟨by decide, by decide⟩

/-! ## C3: the Loop Cleaner is not idempotent, but it never lengthens -/

theorem wordTryMatch_bounds (prev : Bool) (l : Str) (cap : Str) (len : Nat)
    (h : wordTryMatch prev l = some (cap, len)) :
    cap.length ≤ len ∧ cap.length ≤ l.length := by
  unfold wordTryMatch at h
  cases l with
  | nil => cases h
  | cons c rest =>
    simp only at h
    by_cases hb : (!prev && isWordChar c) = true
    · rw [if_pos hb] at h
      by_cases hr : 3 ≤ (wordRepsCount ((c :: rest).takeWhile isWordChar)
          (c :: rest).length ((c :: rest).drop ((c :: rest).takeWhile isWordChar).length)).1
      · rw [if_pos hr] at h
        have hcap : (c :: rest).takeWhile isWordChar = cap ∧
            ((c :: rest).takeWhile isWordChar).length +
              (wordRepsCount ((c :: rest).takeWhile isWordChar) (c :: rest).length
                ((c :: rest).drop ((c :: rest).takeWhile isWordChar).length)).2 = len := by
          have := Option.some.inj h
          exact ⟨congrArg Prod.fst this, congrArg Prod.snd this⟩
        constructor
        · rw [← hcap.1, ← hcap.2]
          exact Nat.le_add_right _ _
        · rw [← hcap.1]
          exact (List.takeWhile_sublist _).length_le
      · rw [if_neg hr] at h
        cases h
    · rw [if_neg hb] at h
      cases h

theorem wordScanF_nil (f : Nat) (prev : Bool) : wordScanF f prev [] = [] := by
  cases f <;> rfl

theorem phraseScanF_nil (f : Nat) : phraseScanF f [] = [] := by
  cases f <;> rfl

theorem wordScanF_length_le :
    ∀ (f : Nat) (prev : Bool) (l : Str), (wordScanF f prev l).length ≤ l.length := by
  intro f
  induction f with
  | zero => intro prev l; exact Nat.le_refl _
  | succ f ih =>
    intro prev l
    cases l with
    | nil => simp [wordScanF]
    | cons c rest =>
      simp only [wordScanF]
      cases hm : wordTryMatch prev (c :: rest) with
      | none =>
        simpa [List.length_cons] using Nat.succ_le_succ (ih (isWordChar c) rest)
      | some pr =>
        obtain ⟨cap, len⟩ := pr
        have hb := wordTryMatch_bounds prev (c :: rest) cap len hm
        rw [List.length_append]
        by_cases hle : len ≤ (c :: rest).length
        · have hdrop : ((c :: rest).drop len).length = (c :: rest).length - len := by
            simp [List.length_drop]
          calc cap.length + (wordScanF f true ((c :: rest).drop len)).length
              ≤ len + ((c :: rest).drop len).length :=
                Nat.add_le_add hb.1 (ih true ((c :: rest).drop len))
            _ = len + ((c :: rest).length - len) := by rw [hdrop]
            _ = (c :: rest).length := by omega
        · have hnil : (c :: rest).drop len = [] :=
            List.drop_eq_nil_of_le (Nat.le_of_lt (Nat.lt_of_not_le hle))
          rw [hnil, wordScanF_nil]
          simpa using hb.2

theorem phraseTryAux_bounds :
    ∀ (f : Nat) (l : Str) (cap : Str) (len : Nat), phraseTryAux l f = some (cap, len) →
      cap.length ≤ len ∧ cap.length ≤ l.length := by
  intro f
  induction f with
  | zero => intro l cap len h; cases h
  | succ f ih =>
    intro l cap len h
    unfold phraseTryAux at h
    split at h
    · cases h
    · split at h
      · split at h
        · rename_i c heq
          have hpair := Option.some.inj h
          have h1 : l.take (51 - (f + 1)) = cap := congrArg Prod.fst hpair
          have h2 : 51 - (f + 1) + c = len := congrArg Prod.snd hpair
          constructor
          · rw [← h1, ← h2]
            calc (l.take (51 - (f + 1))).length ≤ 51 - (f + 1) := by
                  simp [List.length_take]
              _ ≤ 51 - (f + 1) + c := Nat.le_add_right _ _
          · rw [← h1]
            simp [List.length_take]
        · exact ih l cap len h
      · exact ih l cap len h

theorem phraseScanF_length_le :
    ∀ (f : Nat) (l : Str), (phraseScanF f l).length ≤ l.length := by
  intro f
  induction f with
  | zero => intro l; exact Nat.le_refl _
  | succ f ih =>
    intro l
    cases l with
    | nil => simp [phraseScanF]
    | cons c rest =>
      simp only [phraseScanF]
      cases hm : phraseTryMatch (c :: rest) with
      | none =>
        simpa [List.length_cons] using Nat.succ_le_succ (ih rest)
      | some pr =>
        obtain ⟨cap, len⟩ := pr
        have hb := phraseTryAux_bounds 46 (c :: rest) cap len hm
        rw [List.length_append]
        by_cases hle : len ≤ (c :: rest).length
        · have hdrop : ((c :: rest).drop len).length = (c :: rest).length - len := by
            simp [List.length_drop]
          calc cap.length + (phraseScanF f ((c :: rest).drop len)).length
              ≤ len + ((c :: rest).drop len).length :=
                Nat.add_le_add hb.1 (ih ((c :: rest).drop len))
            _ = len + ((c :: rest).length - len) := by rw [hdrop]
            _ = (c :: rest).length := by omega
        · have hnil : (c :: rest).drop len = [] :=
            List.drop_eq_nil_of_le (Nat.le_of_lt (Nat.lt_of_not_le hle))
          rw [hnil, phraseScanF_nil]
          simpa using hb.2

theorem cleanRepetitiveLoops_length_le (s : Str) :
    (cleanRepetitiveLoops s).length ≤ s.length := by
  unfold cleanRepetitiveLoops
  by_cases hs : s = []
  · rw [if_pos hs, hs]
  · rw [if_neg hs]
    unfold phrasePass wordPass
    calc (phraseScanF (wordScanF s.length false s).length (wordScanF s.length false s)).length
        ≤ (wordScanF s.length false s).length := phraseScanF_length_le _ _
      _ ≤ s.length := wordScanF_length_le s.length false s

/-- Claim C3 (corrected): the Loop Cleaner is not idempotent — a second
application can collapse phrase loops that the first application created —
but each application never lengthens its input. -/
theorem C3_clean_never_lengthens (s : Str) :
    (cleanRepetitiveLoops (cleanRepetitiveLoops s)).length ≤ (cleanRepetitiveLoops s).length ∧
    (cleanRepetitiveLoops s).length ≤ s.length :=
  ⟨cleanRepetitiveLoops_length_le (cleanRepetitiveLoops s), cleanRepetitiveLoops_length_le s⟩

/-- Counterexample to C3 as stated: on this input the first pass collapses
the four inner word-pair loops, creating a phrase loop that only the second
pass collapses, so `clean (clean s) ≠ clean s`. -/
theorem C3_counterexample :
    cleanRepetitiveLoops
        (str "ab cd ab cd ab cd ab cd zz ab cd ab cd ab cd ab cd zz ab cd ab cd ab cd ab cd zz ab cd ab cd ab cd ab cd zz") =
      str "ab cd zz ab cd zz ab cd zz ab cd zz" ∧
    cleanRepetitiveLoops (str "ab cd zz ab cd zz ab cd zz ab cd zz") = str "ab cd zz" ∧
    cleanRepetitiveLoops
        (cleanRepetitiveLoops
          (str "ab cd ab cd ab cd ab cd zz ab cd ab cd ab cd ab cd zz ab cd ab cd ab cd ab cd zz ab cd ab cd ab cd ab cd zz")) ≠
      cleanRepetitiveLoops
        (str "ab cd ab cd ab cd ab cd zz ab cd ab cd ab cd ab cd zz ab cd ab cd ab cd ab cd zz ab cd ab cd ab cd ab cd zz") := by
  refine ⟨by decide, by decide, by decide⟩

/-! ## C2 / C5 / C10: order preservation and the continuation frame -/

theorem modifyLast_map {α β : Type} (f : α → α) (g : α → β) (hf : ∀ x, g (f x) = g x) :
    ∀ l : List α, (modifyLast f l).map g = l.map g := by
  intro l
  induction l with
  | nil => rfl
  | cons x rest ih =>
    cases rest with
    | nil => simp [modifyLast, hf]
    | cons y t =>
      simp only [modifyLast, List.map_cons]
      rw [ih]
      rfl

theorem modifyLast_length {α : Type} (f : α → α) :
    ∀ l : List α, (modifyLast f l).length = l.length := by
  intro l
  induction l with
  | nil => rfl
  | cons x rest ih =>
    cases rest with
    | nil => rfl
    | cons y t =>
      simp only [modifyLast, List.length_cons]
      rw [ih]
      rfl

theorem modifyLast_id {α : Type} : ∀ l : List α, modifyLast (fun x => x) l = l := by
  intro l
  induction l with
  | nil => rfl
  | cons x rest ih =>
    cases rest with
    | nil => rfl
    | cons y t =>
      simp only [modifyLast]
      rw [ih]

theorem modifyLast_dropLast {α : Type} (f : α → α) :
    ∀ l : List α, (modifyLast f l).dropLast = l.dropLast := by
  intro l
  induction l with
  | nil => rfl
  | cons x rest ih =>
    cases rest with
    | nil => rfl
    | cons y t =>
      have hc : ∃ z zs, modifyLast f (y :: t) = z :: zs := by
        cases t with
        | nil => exact ⟨f y, [], rfl⟩
        | cons a b => exact ⟨y, modifyLast f (a :: b), rfl⟩
      obtain ⟨z, zs, hz⟩ := hc
      have ih2 : (z :: zs).dropLast = (y :: t).dropLast := by rw [← hz]; exact ih
      simp only [modifyLast, hz]
      show x :: (z :: zs).dropLast = x :: (y :: t).dropLast
      rw [ih2]

theorem sanitizeStep_seconds (st : SanState) (line : Str) :
    ((sanitizeStep st line).segments.map Segment.seconds = st.segments.map Segment.seconds) ∨
    (∃ m, lineMetric line = some m ∧
      (sanitizeStep st line).segments.map Segment.seconds =
        st.segments.map Segment.seconds ++ [m]) := by
  by_cases hshort : (jsTrim line).length < 2
  · left
    simp [sanitizeStep, hshort]
  · cases hm : tsFindMatch line with
    | none =>
      left
      simp only [sanitizeStep, if_neg hshort, hm]
      split
      · split
        · exact modifyLast_map
            (fun s => ⟨s.timestamp, s.seconds, s.text ++ ' ' :: cleanRepetitiveLoops (jsTrim line)⟩)
            Segment.seconds (fun s => rfl) st.segments
        · rfl
      · rfl
    | some g =>
      simp only [sanitizeStep, if_neg hshort, hm]
      split
      · left; rfl
      · split
        · left; rfl
        · split
          · right
            refine ⟨(metricAndDisplay g).1, ?_, ?_⟩
            · simp [lineMetric, if_neg hshort, hm]
            · simp
          · left; rfl

theorem sanitizeFold_seconds :
    ∀ (lines : List Str) (st : SanState),
      ∃ t, (lines.foldl sanitizeStep st).segments.map Segment.seconds =
          st.segments.map Segment.seconds ++ t ∧
        t.Sublist (lines.filterMap lineMetric) := by
  intro lines
  induction lines with
  | nil => intro st; exact ⟨[], by simp, by simp⟩
  | cons line rest ih =>
    intro st
    obtain ⟨t, ht, hs⟩ := ih (sanitizeStep st line)
    rcases sanitizeStep_seconds st line with h | ⟨m, hm, h⟩
    · refine ⟨t, ?_, ?_⟩
      · rw [List.foldl_cons, ht, h]
      · cases hlm : lineMetric line with
        | none => simpa [List.filterMap_cons, hlm] using hs
        | some m' =>
          simp only [List.filterMap_cons, hlm]
          exact hs.trans (List.sublist_cons_self m' _)
    · refine ⟨m :: t, ?_, ?_⟩
      · rw [List.foldl_cons, ht, h, List.append_assoc]
        rfl
      · simp only [List.filterMap_cons, hm]
        exact hs.cons₂ m

theorem sanitize_seconds_sublist (raw : Str) :
    ((sanitizeTranscript raw).map Segment.seconds).Sublist (markerValues raw) := by
  obtain ⟨t, ht, hs⟩ := sanitizeFold_seconds
    (splitOnCharL '\n' (normalizeTranscript raw)) ⟨[], -1, []⟩
  unfold sanitizeTranscript markerValues
  rw [ht]
  simpa using hs

/-- Claim C5 (confirmed): the sanitizer keeps segments in the order their
markers occur in the (normalised) input — the output seconds sequence is a
sublist of the marker values in input order, with no reordering — and the
spec's concrete example yields exactly the two expected segments. -/
theorem C5_sanitizer_ordering :
    sanitizeTranscript (str "[00:01] Bom dia.\n[00:05] Como está?") =
      [⟨str "00:01", 1, str "Bom dia."⟩, ⟨str "00:05", 5, str "Como está?"⟩] ∧
    ∀ raw : Str, ((sanitizeTranscript raw).map Segment.seconds).Sublist (markerValues raw) :=
  ⟨by decide, sanitize_seconds_sublist⟩

/-- Claim C2 (corrected): `seconds` is non-decreasing in append order only
when the parsed marker values of the input are themselves non-decreasing;
the sanitizer propagates the input's marker order without enforcement. -/
theorem C2_monotone_of_marker_monotone (raw : Str)
    (h : List.Chain' (fun a b : Int => a ≤ b) (markerValues raw)) :
    List.Chain' (fun a b : Int => a ≤ b) ((sanitizeTranscript raw).map Segment.seconds) :=
  List.chain'_iff_pairwise.mpr
    ((List.chain'_iff_pairwise.mp h).sublist (sanitize_seconds_sublist raw))

/-- Witness for C2 at a concrete monotone input. -/
theorem C2_monotone_of_marker_monotone_witness :
    List.Chain' (fun a b : Int => a ≤ b)
      (markerValues (str "[00:01] Bom dia tribunal.\n[00:03] Prossigo agora.")) ∧
    List.Chain' (fun a b : Int => a ≤ b)
      ((sanitizeTranscript (str "[00:01] Bom dia tribunal.\n[00:03] Prossigo agora.")).map
        Segment.seconds) := by
  have h1 : markerValues (str "[00:01] Bom dia tribunal.\n[00:03] Prossigo agora.") =
      [1, 3] := by decide
  have hch : List.Chain' (fun a b : Int => a ≤ b)
      (markerValues (str "[00:01] Bom dia tribunal.\n[00:03] Prossigo agora.")) := by
    rw [h1]
    exact List.chain'_pair.mpr (by norm_num)
  exact ⟨hch, C2_monotone_of_marker_monotone _ hch⟩

/-- Counterexample to C2 as stated: an input whose markers go backwards
produces a segment sequence whose seconds are not non-decreasing. -/
theorem C2_counterexample :
    (sanitizeTranscript
        (str "[00:05] Primeira parte da fala.\n[00:01] Segunda parte da fala.")).map
      Segment.seconds = [5, 1] ∧
    ¬ List.Chain' (fun a b : Int => a ≤ b)
        ((sanitizeTranscript
            (str "[00:05] Primeira parte da fala.\n[00:01] Segunda parte da fala.")).map
          Segment.seconds) := by
  have h1 : (sanitizeTranscript
      (str "[00:05] Primeira parte da fala.\n[00:01] Segunda parte da fala.")).map
      Segment.seconds = [5, 1] := by decide
  refine ⟨h1, ?_⟩
  intro h
  rw [h1] at h
  have h2 := List.chain'_pair.mp h
  norm_num at h2

/-- Claim C10 (confirmed): a line with no recognised marker, processed
while at least one segment exists, only ever appends to the text of the
most recently appended segment — the timestamps, the seconds, the number of
segments and all earlier segments are unchanged. -/
theorem C10_continuation_frame (st : SanState) (line : Str)
    (hm : tsFindMatch line = none) (_hne : st.segments ≠ []) :
    ∃ added : Str,
      (sanitizeStep st line).segments =
        modifyLast (fun s => ⟨s.timestamp, s.seconds, s.text ++ added⟩) st.segments ∧
      (sanitizeStep st line).segments.map Segment.timestamp =
        st.segments.map Segment.timestamp ∧
      (sanitizeStep st line).segments.map Segment.seconds = st.segments.map Segment.seconds ∧
      (sanitizeStep st line).segments.length = st.segments.length ∧
      (sanitizeStep st line).segments.dropLast = st.segments.dropLast := by
  have hid : modifyLast (fun s : Segment => ⟨s.timestamp, s.seconds, s.text ++ []⟩)
      st.segments = st.segments := by
    have he : (fun s : Segment => (⟨s.timestamp, s.seconds, s.text ++ []⟩ : Segment)) =
        fun s => s := by
      funext s
      cases s
      simp
    rw [he, modifyLast_id]
  by_cases hshort : (jsTrim line).length < 2
  · refine ⟨[], ?_, by simp [sanitizeStep, hshort], by simp [sanitizeStep, hshort],
      by simp [sanitizeStep, hshort], by simp [sanitizeStep, hshort]⟩
    have he : (fun s : Segment => (⟨s.timestamp, s.seconds, s.text⟩ : Segment)) =
        fun s => s := by
      funext s
      cases s
      rfl
    simp only [sanitizeStep, if_pos hshort, List.append_nil]
    rw [he, modifyLast_id]
  · simp only [sanitizeStep, if_neg hshort, hm]
    split
    · split
      · exact ⟨' ' :: cleanRepetitiveLoops (jsTrim line), rfl,
          modifyLast_map
            (fun s => ⟨s.timestamp, s.seconds, s.text ++ ' ' :: cleanRepetitiveLoops (jsTrim line)⟩)
            Segment.timestamp (fun s => rfl) st.segments,
          modifyLast_map
            (fun s => ⟨s.timestamp, s.seconds, s.text ++ ' ' :: cleanRepetitiveLoops (jsTrim line)⟩)
            Segment.seconds (fun s => rfl) st.segments,
          modifyLast_length
            (fun s => ⟨s.timestamp, s.seconds, s.text ++ ' ' :: cleanRepetitiveLoops (jsTrim line)⟩)
            st.segments,
          modifyLast_dropLast
            (fun s => ⟨s.timestamp, s.seconds, s.text ++ ' ' :: cleanRepetitiveLoops (jsTrim line)⟩)
            st.segments⟩
      · exact ⟨[], hid.symm, rfl, rfl, rfl, rfl⟩
    · exact ⟨[], hid.symm, rfl, rfl, rfl, rfl⟩

/-- Witness for C10 at a concrete state and continuation line. -/
theorem C10_continuation_frame_witness :
    tsFindMatch (str "continuação da frase") = none ∧
    ∃ added : Str,
      (sanitizeStep ⟨[⟨str "00:01", 1, str "Bom dia."⟩], 1, str "Bom dia."⟩
          (str "continuação da frase")).segments =
        modifyLast (fun s => ⟨s.timestamp, s.seconds, s.text ++ added⟩)
          [⟨str "00:01", 1, str "Bom dia."⟩] ∧
      (sanitizeStep ⟨[⟨str "00:01", 1, str "Bom dia."⟩], 1, str "Bom dia."⟩
          (str "continuação da frase")).segments.map Segment.timestamp =
        [⟨str "00:01", 1, str "Bom dia."⟩].map Segment.timestamp ∧
      (sanitizeStep ⟨[⟨str "00:01", 1, str "Bom dia."⟩], 1, str "Bom dia."⟩
          (str "continuação da frase")).segments.map Segment.seconds =
        [⟨str "00:01", 1, str "Bom dia."⟩].map Segment.seconds ∧
      (sanitizeStep ⟨[⟨str "00:01", 1, str "Bom dia."⟩], 1, str "Bom dia."⟩
          (str "continuação da frase")).segments.length =
        [(⟨str "00:01", 1, str "Bom dia."⟩ : Segment)].length ∧
      (sanitizeStep ⟨[⟨str "00:01", 1, str "Bom dia."⟩], 1, str "Bom dia."⟩
          (str "continuação da frase")).segments.dropLast =
        [(⟨str "00:01", 1, str "Bom dia."⟩ : Segment)].dropLast :=
  ⟨by decide,
   C10_continuation_frame ⟨[⟨str "00:01", 1, str "Bom dia."⟩], 1, str "Bom dia."⟩
     (str "continuação da frase") (by decide) (by decide)⟩

/-! ## C6 / C7: citation-excerpt semantics -/

theorem jsFindIndexAux_isSome {α : Type} (p : α → Bool) :
    ∀ (l : List α) (i : Nat),
      (jsFindIndexAux p i l).isSome = true ↔ ∃ x ∈ l, p x = true := by
  intro l
  induction l with
  | nil => intro i; simp [jsFindIndexAux]
  | cons x rest ih =>
    intro i
    by_cases hp : p x = true
    · simp [jsFindIndexAux, hp]
    · simp only [jsFindIndexAux, if_neg hp]
      rw [ih (i + 1)]
      simp only [List.mem_cons]
      constructor
      · rintro ⟨y, hy, hpy⟩
        exact ⟨y, Or.inr hy, hpy⟩
      · rintro ⟨y, hy | hy, hpy⟩
        · rw [hy] at hpy
          exact absurd hpy hp
        · exact ⟨y, hy, hpy⟩

theorem jsFindIndexAux_pred {α : Type} (p : α → Bool) :
    ∀ (l : List α) (i j : Nat), jsFindIndexAux p i l = some j →
      i ≤ j ∧ ∃ x, l.get? (j - i) = some x ∧ p x = true := by
  intro l
  induction l with
  | nil => intro i j h; cases h
  | cons x rest ih =>
    intro i j h
    by_cases hp : p x = true
    · simp only [jsFindIndexAux, if_pos hp] at h
      have hij : i = j := Option.some.inj h
      subst hij
      exact ⟨Nat.le_refl i, x, by simp, hp⟩
    · simp only [jsFindIndexAux, if_neg hp] at h
      obtain ⟨hle, y, hy, hpy⟩ := ih (i + 1) j h
      refine ⟨Nat.le_of_succ_le hle, y, ?_, hpy⟩
      have hd : j - i = (j - (i + 1)) + 1 := by omega
      rw [hd]
      simpa using hy

/-- The testimony tolerance test computes the strict integer comparison. -/
theorem jsTolPred_eq (s : Segment) (t : Int) :
    jsLt (jsAbsO (jsSub (some s.seconds) (some t))) (some 2) =
      decide (|s.seconds - t| < 2) := rfl

/-- The closest-segment comparison computes the strict integer
comparison of absolute differences. -/
theorem jsCmpSegs_eq (a b t : Int) :
    jsLt (jsAbsO (jsSub (some a) (some t))) (jsAbsO (jsSub (some b) (some t))) =
      decide (|a - t| < |b - t|) := rfl

theorem closest_foldl_min (t : Int) :
    ∀ (l : List Segment) (init : Segment),
      (l.foldl
          (fun prev curr =>
            if jsLt (jsAbsO (jsSub (some curr.seconds) (some t)))
                (jsAbsO (jsSub (some prev.seconds) (some t))) then curr else prev)
          init = init ∨
        l.foldl
          (fun prev curr =>
            if jsLt (jsAbsO (jsSub (some curr.seconds) (some t)))
                (jsAbsO (jsSub (some prev.seconds) (some t))) then curr else prev)
          init ∈ l) ∧
      |(l.foldl
          (fun prev curr =>
            if jsLt (jsAbsO (jsSub (some curr.seconds) (some t)))
                (jsAbsO (jsSub (some prev.seconds) (some t))) then curr else prev)
          init).seconds - t| ≤ |init.seconds - t| ∧
      ∀ x ∈ l,
        |(l.foldl
            (fun prev curr =>
              if jsLt (jsAbsO (jsSub (some curr.seconds) (some t)))
                  (jsAbsO (jsSub (some prev.seconds) (some t))) then curr else prev)
            init).seconds - t| ≤ |x.seconds - t| := by
  intro l
  induction l with
  | nil => intro init; exact ⟨Or.inl rfl, le_refl _, by simp⟩
  | cons x rest ih =>
    intro init
    simp only [List.foldl_cons]
    have hstep : (if jsLt (jsAbsO (jsSub (some x.seconds) (some t)))
        (jsAbsO (jsSub (some init.seconds) (some t))) then x else init) = x ∨
        (if jsLt (jsAbsO (jsSub (some x.seconds) (some t)))
        (jsAbsO (jsSub (some init.seconds) (some t))) then x else init) = init := by
      split
      · exact Or.inl rfl
      · exact Or.inr rfl
    have hstepmin : |(if jsLt (jsAbsO (jsSub (some x.seconds) (some t)))
        (jsAbsO (jsSub (some init.seconds) (some t))) then x else init).seconds - t| ≤
        |init.seconds - t| ∧
        |(if jsLt (jsAbsO (jsSub (some x.seconds) (some t)))
        (jsAbsO (jsSub (some init.seconds) (some t))) then x else init).seconds - t| ≤
        |x.seconds - t| := by
      simp only [jsCmpSegs_eq, decide_eq_true_eq]
      by_cases hc : |x.seconds - t| < |init.seconds - t|
      · rw [if_pos hc]
        exact ⟨le_of_lt hc, le_refl _⟩
      · rw [if_neg hc]
        exact ⟨le_refl _, le_of_not_lt hc⟩
    obtain ⟨hmem, hinit, hall⟩ := ih
      (if jsLt (jsAbsO (jsSub (some x.seconds) (some t)))
        (jsAbsO (jsSub (some init.seconds) (some t))) then x else init)
    refine ⟨?_, ?_, ?_⟩
    · rcases hmem with hm | hm
      · rw [hm]
        rcases hstep with hs | hs
        · rw [hs]; exact Or.inr (by simp)
        · rw [hs]; exact Or.inl rfl
      · exact Or.inr (List.mem_cons_of_mem x hm)
    · exact le_trans hinit hstepmin.1
    · intro y hy
      rcases List.mem_cons.mp hy with hyx | hyr
      · rw [hyx]
        exact le_trans hinit hstepmin.2
      · exact hall y hyr

/-- Claim C6 (corrected): the testimony matcher locates a segment exactly
when one lies strictly within two seconds of the target (`< 2`, i.e. `±1`
for integer positions — not `±2`); when none does, the default text is
returned.  Document resolution uses no tolerance window: the returned text
is the text of a segment minimising the absolute difference to the
target. -/
theorem C6_resolver_semantics :
    (∀ (segs : List Segment) (t : Int),
      (jsFindIndexTol segs (some t)).isSome = true ↔ ∃ s ∈ segs, |s.seconds - t| < 2) ∧
    (∀ (segs : List Segment) (t : Int) (c : Nat), jsFindIndexTol segs (some t) = some c →
      ∃ s, segs.get? c = some s ∧ |s.seconds - t| < 2) ∧
    (∀ (src : ProcessedContent) (t : Int), jsFindIndexTol src.segments (some t) = none →
      mkCitationText src false (some t) = str "Texto indisponível") ∧
    (∀ (src : ProcessedContent) (t : Int), src.segments ≠ [] →
      ∃ r ∈ src.segments, mkCitationText src true (some t) = r.text ∧
        ∀ x ∈ src.segments, |r.seconds - t| ≤ |x.seconds - t|) := by
  refine ⟨?_, ?_, ?_, ?_⟩
  · intro segs t
    unfold jsFindIndexTol jsFindIndex
    rw [jsFindIndexAux_isSome]
    constructor
    · rintro ⟨s, hs, hp⟩
      exact ⟨s, hs, by simpa [jsTolPred_eq] using hp⟩
    · rintro ⟨s, hs, hp⟩
      exact ⟨s, hs, by simpa [jsTolPred_eq] using hp⟩
  · intro segs t c h
    unfold jsFindIndexTol jsFindIndex at h
    obtain ⟨-, s, hs, hp⟩ := jsFindIndexAux_pred _ segs 0 c h
    exact ⟨s, by simpa using hs, by simpa [jsTolPred_eq] using hp⟩
  · intro src t h
    unfold mkCitationText
    rw [if_neg (by simp), h]
  · intro src t hne
    unfold mkCitationText
    rw [if_pos rfl]
    cases hsegs : src.segments with
    | nil => exact absurd hsegs hne
    | cons s0 rest =>
      unfold jsReduceClosest
      dsimp only
      obtain ⟨hmem, hinit, hall⟩ := closest_foldl_min t (s0 :: rest) s0
      refine ⟨(s0 :: rest).foldl _ s0, ?_, rfl, ?_⟩
      · rcases hmem with hm | hm
        · rw [hm]; simp
        · exact hm
      · exact hall

/-- Witness for C6 at concrete segment lists. -/
theorem C6_resolver_semantics_witness :
    ((jsFindIndexTol [⟨str "00:10", 10, str "alpha"⟩] (some 11)).isSome = true ↔
      ∃ s ∈ [(⟨str "00:10", 10, str "alpha"⟩ : Segment)], |s.seconds - 11| < 2) ∧
    (jsFindIndexTol [(⟨str "00:10", 10, str "alpha"⟩ : Segment)] (some 20) = none →
      mkCitationText ⟨str "idc", str "doc.pdf", [⟨str "00:10", 10, str "alpha"⟩], str "x"⟩ false
        (some 20) = str "Texto indisponível") ∧
    (∃ r ∈ [(⟨str "Pág 1", 1, str "um"⟩ : Segment), ⟨str "Pág 3", 3, str "tres"⟩],
      mkCitationText ⟨str "idc", str "doc.pdf",
        [⟨str "Pág 1", 1, str "um"⟩, ⟨str "Pág 3", 3, str "tres"⟩], str "x"⟩ true
        (some 3) = r.text ∧
      ∀ x ∈ [(⟨str "Pág 1", 1, str "um"⟩ : Segment), ⟨str "Pág 3", 3, str "tres"⟩],
        |r.seconds - 3| ≤ |x.seconds - 3|) :=
  ⟨C6_resolver_semantics.1 [⟨str "00:10", 10, str "alpha"⟩] 11,
   C6_resolver_semantics.2.2.1 ⟨str "idc", str "doc.pdf", [⟨str "00:10", 10, str "alpha"⟩], str "x"⟩ 20,
   C6_resolver_semantics.2.2.2 ⟨str "idc", str "doc.pdf",
     [⟨str "Pág 1", 1, str "um"⟩, ⟨str "Pág 3", 3, str "tres"⟩], str "x"⟩ 3 (by decide)⟩

/-- Counterexample to C6 as stated: with a lone segment at 10 seconds and a
target of 12 the absolute difference is exactly 2 — inside the claimed `±2`
tolerance — yet the resolver finds nothing and the citation text is the
unavailable-text default rather than a context window. -/
theorem C6_counterexample :
    |(10 : Int) - 12| ≤ 2 ∧
    analyzeFactsFromEvidenceCore
        (str "[[FACT]]\nID: f1\n[[STATUS]]Confirmado[[END_STATUS]]\n[[SUMMARY]]Resumo.[[END_SUMMARY]]\n[[EVIDENCES]]\n- [file.mp3 @ 00:12]\n[[END_EVIDENCES]]\n[[END_FACT]]")
        [⟨str "id1", str "file.mp3", [⟨str "00:10", 10, str "alpha beta"⟩], str "x"⟩]
        [⟨str "f1", str "Facto um."⟩] [⟨str "id1", some (str "TESTIMONY")⟩] =
      ⟨str "Análise concluída.",
       [⟨str "f1", str "Facto um.", str "Confirmado", str "Resumo.",
         [⟨str "id1", str "file.mp3", str "00:12", some 12, str "Texto indisponível"⟩]⟩]⟩ :=
  ⟨by decide, by decide⟩

/-- Claim C7 (corrected): no Loop Cleaner pass is applied to the assembled
excerpt — for testimony the returned text is exactly the space-joined raw
window of segment texts, and for documents exactly the closest segment's
text verbatim. -/
theorem C7_excerpt_uncleaned :
    (∀ (src : ProcessedContent) (t : Int) (c : Nat),
      jsFindIndexTol src.segments (some t) = some c →
      mkCitationText src false (some t) =
        joinSpace (jsSlice (src.segments.map Segment.text) (c - 1)
          (min src.segments.length (c + 6)))) ∧
    (∀ (src : ProcessedContent) (t : Int) (r : Segment),
      jsReduceClosest src.segments (some t) = some r →
      mkCitationText src true (some t) = r.text) := by
  constructor
  · intro src t c h
    unfold mkCitationText
    rw [if_neg (by simp), h]
    unfold jsSlice
    rw [← List.map_drop, ← List.map_take]
  · intro src t r h
    unfold mkCitationText
    rw [if_pos rfl, h]

/-- Witness for C7: on a corpus whose window joins into a phrase loop, the
theorem yields the raw (uncleaned) join. -/
theorem C7_excerpt_uncleaned_witness :
    jsFindIndexTol [(⟨str "00:10", 10, str "pois sim"⟩ : Segment), ⟨str "00:11", 11, str "pois sim."⟩,
        ⟨str "00:12", 12, str "pois sim"⟩, ⟨str "00:13", 13, str "pois sim."⟩] (some 10) = some 0 ∧
    mkCitationText
        ⟨str "id1", str "loop.mp3",
          [⟨str "00:10", 10, str "pois sim"⟩, ⟨str "00:11", 11, str "pois sim."⟩,
           ⟨str "00:12", 12, str "pois sim"⟩, ⟨str "00:13", 13, str "pois sim."⟩], str "x"⟩
        false (some 10) =
      joinSpace (jsSlice
        ([(⟨str "00:10", 10, str "pois sim"⟩ : Segment), ⟨str "00:11", 11, str "pois sim."⟩,
          ⟨str "00:12", 12, str "pois sim"⟩, ⟨str "00:13", 13, str "pois sim."⟩].map Segment.text)
        (0 - 1) (min 4 (0 + 6))) :=
  ⟨by decide,
   C7_excerpt_uncleaned.1
     ⟨str "id1", str "loop.mp3",
       [⟨str "00:10", 10, str "pois sim"⟩, ⟨str "00:11", 11, str "pois sim."⟩,
        ⟨str "00:12", 12, str "pois sim"⟩, ⟨str "00:13", 13, str "pois sim."⟩], str "x"⟩
     10 0 (by decide)⟩

/-- Counterexample to C7 as stated: the resolved citation text still
contains a four-fold phrase loop, so it is not a Loop Cleaner fixed point —
the cleaner was not applied to the final excerpt. -/
theorem C7_counterexample :
    (analyzeFactsFromEvidenceCore
        (str "[[FACT]]\nID: f1\n[[STATUS]]Confirmado[[END_STATUS]]\n[[SUMMARY]]Resumo.[[END_SUMMARY]]\n[[EVIDENCES]]\n- [loop.mp3 @ 00:10]\n[[END_EVIDENCES]]\n[[END_FACT]]")
        [⟨str "id1", str "loop.mp3",
          [⟨str "00:10", 10, str "pois sim"⟩, ⟨str "00:11", 11, str "pois sim."⟩,
           ⟨str "00:12", 12, str "pois sim"⟩, ⟨str "00:13", 13, str "pois sim."⟩], str "x"⟩]
        [⟨str "f1", str "Facto um."⟩] [⟨str "id1", some (str "TESTIMONY")⟩]).results.map
      (fun r => r.citations.map Citation.text) =
      [[str "pois sim pois sim. pois sim pois sim."]] ∧
    cleanRepetitiveLoops (str "pois sim pois sim. pois sim pois sim.") ≠
      str "pois sim pois sim. pois sim pois sim." :=
  ⟨by decide, by decide⟩

/-! ## C8 / C9: fuzzy file matching and multi-timestamp markers -/

theorem jsFind_first {α : Type} (p : α → Bool) :
    ∀ (l : List α) (d : α), jsFind p l = some d →
      ∃ i, l.get? i = some d ∧ p d = true ∧
        ∀ j, j < i → ∀ e, l.get? j = some e → p e = false := by
  intro l
  induction l with
  | nil => intro d h; cases h
  | cons x rest ih =>
    intro d h
    by_cases hp : p x = true
    · simp only [jsFind, if_pos hp] at h
      have hd : x = d := Option.some.inj h
      subst hd
      exact ⟨0, by simp, hp, fun j hj => absurd hj (Nat.not_lt_zero j)⟩
    · simp only [jsFind, if_neg hp] at h
      obtain ⟨i, hi, hpd, hfirst⟩ := ih d h
      refine ⟨i + 1, by simpa using hi, hpd, ?_⟩
      intro j hj e he
      cases j with
      | zero =>
        have hex : e = x := Option.some.inj he.symm
        subst hex
        exact Bool.not_eq_true (p e) |>.mp hp
      | succ k =>
        exact hfirst k (Nat.lt_of_succ_lt_succ hj) e (by simpa using he)

theorem parseFactBlock_proj (corpus corpus' : List ProcessedContent)
    (metas metas' : List EvidenceMeta) (facts : List Fact) (block : Str) :
    (parseFactBlock corpus metas facts block).map (fun r => (r.factId, r.status, r.summary)) =
    (parseFactBlock corpus' metas' facts block).map
      (fun r => (r.factId, r.status, r.summary)) := by
  unfold parseFactBlock
  split <;> (dsimp only; split <;> rfl)

theorem filterMap_map_proj {α β γ : Type} (f g : α → Option β) (pr : β → γ)
    (h : ∀ a, (f a).map pr = (g a).map pr) :
    ∀ l : List α, (l.filterMap f).map pr = (l.filterMap g).map pr := by
  intro l
  induction l with
  | nil => rfl
  | cons a rest ih =>
    have ha := h a
    cases hfa : f a with
    | none =>
      cases hga : g a with
      | none => simpa [List.filterMap_cons, hfa, hga] using ih
      | some b =>
        rw [hfa, hga] at ha
        cases ha
    | some b =>
      cases hga : g a with
      | none =>
        rw [hfa, hga] at ha
        cases ha
      | some b' =>
        rw [hfa, hga] at ha
        simp only [List.filterMap_cons, hfa, hga, List.map_cons]
        rw [ih]
        have : pr b = pr b' := by simpa using ha
        rw [this]

/-- Claim C8 (confirmed): citation resolution fuzzy-matches by
case-insensitive substring containment in either direction (the content of
`fuzzyPred`), takes the first match in corpus order, drops the citation
entirely when nothing matches, and which facts a report contains never
depends on the evidence corpus or metadata (report generation proceeds). -/
theorem C8_fuzzy_match_semantics :
    (∀ (ref : Str) (corpus : List ProcessedContent) (d : ProcessedContent),
      jsFind (fuzzyPred ref) corpus = some d →
      ∃ i, corpus.get? i = some d ∧ fuzzyPred ref d = true ∧
        ∀ j, j < i → ∀ e, corpus.get? j = some e → fuzzyPred ref e = false) ∧
    (∀ (corpus : List ProcessedContent) (metas : List EvidenceMeta) (m : Str × Str),
      jsFind (fuzzyPred (jsTrim m.1)) corpus = none →
      markerCitations corpus metas m = []) ∧
    (∀ (raw : Str) (corpus corpus' : List ProcessedContent) (facts : List Fact)
      (metas metas' : List EvidenceMeta),
      (analyzeFactsFromEvidenceCore raw corpus facts metas).results.map
          (fun r => (r.factId, r.status, r.summary)) =
        (analyzeFactsFromEvidenceCore raw corpus' facts metas').results.map
          (fun r => (r.factId, r.status, r.summary))) := by
  refine ⟨fun ref => jsFind_first (fuzzyPred ref), ?_, ?_⟩
  · intro corpus metas m h
    unfold markerCitations
    dsimp only
    rw [h]
  · intro raw corpus corpus' facts metas metas'
    unfold analyzeFactsFromEvidenceCore
    exact filterMap_map_proj (parseFactBlock corpus metas facts)
      (parseFactBlock corpus' metas' facts) _
      (fun block => parseFactBlock_proj corpus corpus' metas metas' facts block) _

/-- Witness for C8: the case-insensitive fragment `"DEP"` matches
`"depoimento1.mp3"` (first match characterisation), and a marker whose file
reference matches nothing contributes no citation. -/
theorem C8_fuzzy_match_semantics_witness :
    (∃ i, [(⟨str "idz", str "depoimento1.mp3", [], str "x"⟩ : ProcessedContent)].get? i =
        some ⟨str "idz", str "depoimento1.mp3", [], str "x"⟩ ∧
      fuzzyPred (str "DEP") ⟨str "idz", str "depoimento1.mp3", [], str "x"⟩ = true ∧
      ∀ j, j < i → ∀ e,
        [(⟨str "idz", str "depoimento1.mp3", [], str "x"⟩ : ProcessedContent)].get? j = some e →
        fuzzyPred (str "DEP") e = false) ∧
    markerCitations [⟨str "idz", str "depoimento1.mp3", [], str "x"⟩] []
      (str "desconhecido.wav", str "00:10") = [] :=
  ⟨C8_fuzzy_match_semantics.1 (str "DEP") [⟨str "idz", str "depoimento1.mp3", [], str "x"⟩]
     ⟨str "idz", str "depoimento1.mp3", [], str "x"⟩ (by decide),
   C8_fuzzy_match_semantics.2.1 [⟨str "idz", str "depoimento1.mp3", [], str "x"⟩] []
     (str "desconhecido.wav", str "00:10") (by decide)⟩

theorem map_const_replicate {α β : Type} (v : β) :
    ∀ l : List α, l.map (fun _ => v) = List.replicate l.length v := by
  intro l
  induction l with
  | nil => rfl
  | cons x rest ih =>
    simp only [List.map_cons, List.length_cons, List.replicate_succ]
    rw [ih]

/-- Claim C9 (confirmed): a marker listing several comma-separated
timestamps yields one `Citation` per listed timestamp, all sharing the
resolved file's `fileId` and `fileName`; the spec's concrete example
produces exactly two citations for the same file. -/
theorem C9_multi_timestamp_citations :
    (∀ (corpus : List ProcessedContent) (metas : List EvidenceMeta) (m : Str × Str)
      (src : ProcessedContent), jsFind (fuzzyPred (jsTrim m.1)) corpus = some src →
      (markerCitations corpus metas m).map Citation.fileId =
        List.replicate ((splitOnCharL ',' (jsTrim m.2)).length) src.fileId ∧
      (markerCitations corpus metas m).map Citation.fileName =
        List.replicate ((splitOnCharL ',' (jsTrim m.2)).length) src.fileName ∧
      (markerCitations corpus metas m).length = (splitOnCharL ',' (jsTrim m.2)).length) ∧
    (analyzeFactsFromEvidenceCore
        (str "[[FACT]]\nID: f1\n[[STATUS]]Confirmado[[END_STATUS]]\n[[SUMMARY]]Resumo.[[END_SUMMARY]]\n[[EVIDENCES]]\n- [file.mp3 @ 01:00, 02:00]\n[[END_EVIDENCES]]\n[[END_FACT]]")
        [⟨str "id9", str "file.mp3",
          [⟨str "01:00", 60, str "Primeira resposta."⟩, ⟨str "02:00", 120, str "Segunda resposta."⟩],
          str "x"⟩]
        [⟨str "f1", str "Facto um."⟩] [⟨str "id9", some (str "TESTIMONY")⟩]).results =
      [⟨str "f1", str "Facto um.", str "Confirmado", str "Resumo.",
        [⟨str "id9", str "file.mp3", str "01:00", some 60,
          str "Primeira resposta. Segunda resposta."⟩,
         ⟨str "id9", str "file.mp3", str "02:00", some 120,
          str "Primeira resposta. Segunda resposta."⟩]⟩] := by
  constructor
  · intro corpus metas m src h
    unfold markerCitations
    dsimp only
    rw [h]
    dsimp only
    refine ⟨?_, ?_, ?_⟩
    · rw [List.map_map, List.map_map]
      exact map_const_replicate src.fileId (splitOnCharL ',' (jsTrim m.2))
    · rw [List.map_map, List.map_map]
      exact map_const_replicate src.fileName (splitOnCharL ',' (jsTrim m.2))
    · rw [List.length_map, List.length_map]
  · decide

/-- Witness for C9: the general part applied at the spec's marker. -/
theorem C9_multi_timestamp_citations_witness :
    (markerCitations
        [⟨str "id9", str "file.mp3", [], str "x"⟩] []
        (str "file.mp3", str "01:00, 02:00")).map Citation.fileId =
      List.replicate ((splitOnCharL ',' (jsTrim (str "01:00, 02:00"))).length) (str "id9") ∧
    (markerCitations
        [⟨str "id9", str "file.mp3", [], str "x"⟩] []
        (str "file.mp3", str "01:00, 02:00")).map Citation.fileName =
      List.replicate ((splitOnCharL ',' (jsTrim (str "01:00, 02:00"))).length) (str "file.mp3") ∧
    (markerCitations
        [⟨str "id9", str "file.mp3", [], str "x"⟩] []
        (str "file.mp3", str "01:00, 02:00")).length =
      (splitOnCharL ',' (jsTrim (str "01:00, 02:00"))).length :=
  C9_multi_timestamp_citations.1 [⟨str "id9", str "file.mp3", [], str "x"⟩] []
    (str "file.mp3", str "01:00, 02:00") ⟨str "id9", str "file.mp3", [], str "x"⟩ (by decide)

end AudioFact
